import Mathlib

/-!
# Patch locker reconciler

A shallow embedding of `pkg/patchlocker/patch-reconciler.go`.

Conventions of the embedding

* A Go function returning `(T, error)` becomes a function into `Except GoError T`;
  the value Go returns next to a non-nil error is never read by any caller in the
  file and is dropped.
* Remote collaborators (discovery, dynamic client, patch endpoint) and library
  calls whose source is outside the repository (`text/template`, `sigs.k8s.io/yaml`,
  `client-go/util/jsonpath`, `schema.FromAPIVersionAndKind`) are fields of an
  environment record.  Every call made to one of them is appended to a call log,
  so that "no call was made" and "this argument was handed over" are statements
  about the log.
* Logging (`log.Error`) has no effect on any result and is left out.
* The send on `statusChange` is modelled as appending to the channel's content:
  the receiver is assumed to drain the channel.
-/

namespace PatchLocker

/-! ## Definitions -/

/-! ### Data model -/

/-- Go `error` values: either produced by a collaborator outside this file
(`ext`, with an identity besides its text) or built in this file by
`errors.New` / `fmt.Errorf` (`new`). -/
inductive GoError where
  | ext (id : Nat) (msg : String)
  | new (msg : String)
deriving DecidableEq, Repr

/-- The method `Error()` of a Go error: its text. -/
def GoError.Error : GoError → String
  | .ext _ msg => msg
  | .new msg => msg

/-- The struct `corev1.ObjectReference`. -/
structure ObjectReference where
  Kind : String := ""
  Namespace : String := ""
  Name : String := ""
  UID : String := ""
  APIVersion : String := ""
  ResourceVersion : String := ""
  FieldPath : String := ""
deriving DecidableEq, Repr

/-- The struct `schema.GroupVersionKind`. -/
structure GroupVersionKind where
  Group : String := ""
  Version : String := ""
  Kind : String := ""
deriving DecidableEq, Repr

/-- The struct `schema.GroupVersion`. -/
structure GroupVersion where
  Group : String := ""
  Version : String := ""
deriving DecidableEq, Repr

/-- An `unstructured.Unstructured` object, seen through the accessors the file
uses (`SetKind`/`SetAPIVersion`/`SetNamespace`/`SetName` and their getters); the
rest of its content is `Data`. The default value is `&unstructured.Unstructured{}`. -/
structure Unstructured where
  Kind : String := ""
  APIVersion : String := ""
  Namespace : String := ""
  Name : String := ""
  Data : List (String × String) := []
deriving DecidableEq, Repr

/-- The `interface{}` values that flow into the template: either the full
structured content of an object (`obj.UnstructuredContent()`) or a value selected
out of it by a path query, kept as its text. -/
inductive Value where
  | content (obj : Unstructured)
  | node (json : String)
deriving DecidableEq, Repr

/-- The method `UnstructuredContent` of an object. -/
def Unstructured.UnstructuredContent (obj : Unstructured) : Value := .content obj

/-- A parsed `template.Template`, given by what `Execute` writes for a parameter
list, or the error it returns. -/
structure Template where
  Execute : List Value → Except GoError String

/-- The struct `Patch`. -/
structure Patch where
  SourceObjectRefs : List ObjectReference
  TargetObjectRef : ObjectReference
  PatchType : String
  PatchTemplate : String
  Template : Template

/-- The type `PatchConditionType` with its two constants. -/
inductive PatchConditionType where
  | Enforcing
  | Failure
deriving DecidableEq, Repr

/-- The type `corev1.ConditionStatus`. -/
inductive ConditionStatus where
  | ConditionTrue
  | ConditionFalse
  | ConditionUnknown
deriving DecidableEq, Repr

/-- The struct `PatchStatus` (the field `Type` is `Type_` here, `Type` being
reserved); its zero value has the empty string as type and status, which is
`none` here. -/
structure PatchStatus where
  Type_ : Option PatchConditionType := none
  Status : Option ConditionStatus := none
  LastUpdateTime : Nat := 0
  Message : String := ""
deriving DecidableEq, Repr

/-- The struct `reconcile.Request`: a namespaced name. -/
structure Request where
  Namespace : String
  Name : String
deriving DecidableEq, Repr

/-- The struct `reconcile.Result`. -/
structure Result where
  Requeue : Bool := false
  RequeueAfter : Nat := 0
deriving DecidableEq, Repr

/-- What `GetName` and `GetNamespace` return for the object of an event. -/
structure ObjectMeta where
  Name : String
  Namespace : String
deriving DecidableEq, Repr

/-- The struct `event.CreateEvent`. -/
structure CreateEvent where
  Meta : ObjectMeta
deriving DecidableEq, Repr

/-- The struct `event.UpdateEvent`. -/
structure UpdateEvent where
  MetaOld : ObjectMeta
  MetaNew : ObjectMeta
deriving DecidableEq, Repr

/-- The struct `event.DeleteEvent`. -/
structure DeleteEvent where
  Meta : ObjectMeta
deriving DecidableEq, Repr

/-- The struct `event.GenericEvent`. -/
structure GenericEvent where
  Meta : ObjectMeta
deriving DecidableEq, Repr

/-- The four kinds of event a watch delivers. -/
inductive Event where
  | Create (e : CreateEvent)
  | Update (e : UpdateEvent)
  | Delete (e : DeleteEvent)
  | Generic (e : GenericEvent)
deriving DecidableEq, Repr

/-! ### Enqueue handler and identity predicate -/

/-- The work queue, as the list of items handed to `q.Add`, oldest first. -/
abbrev Queue := List Request

/-- The method `q.Add`. -/
def Queue.Add (q : Queue) (item : Request) : Queue := q ++ [item]

/-- The struct `enqueueRequestForPatch`. -/
structure enqueueRequestForPatch where
  Request : Request
deriving DecidableEq, Repr

/-- The method `Create` (lines 156-158). -/
def enqueueRequestForPatch.Create (e : enqueueRequestForPatch) (_evt : CreateEvent)
    (q : Queue) : Queue :=
  q.Add e.Request

/-- The method `Update` (lines 161-163). -/
def enqueueRequestForPatch.Update (e : enqueueRequestForPatch) (_evt : UpdateEvent)
    (q : Queue) : Queue :=
  q.Add e.Request

/-- The method `Delete` (lines 166-168). -/
def enqueueRequestForPatch.Delete (e : enqueueRequestForPatch) (_evt : DeleteEvent)
    (q : Queue) : Queue :=
  q.Add e.Request

/-- The method `Generic` (lines 171-173). -/
def enqueueRequestForPatch.Generic (e : enqueueRequestForPatch) (_evt : GenericEvent)
    (q : Queue) : Queue :=
  q.Add e.Request

/-- The event handler interface: each kind of event goes to the method of the
same name. -/
def enqueueRequestForPatch.handle (e : enqueueRequestForPatch) : Event → Queue → Queue
  | .Create evt, q => e.Create evt q
  | .Update evt, q => e.Update evt q
  | .Delete evt, q => e.Delete evt q
  | .Generic evt, q => e.Generic evt q

/-- The struct `referenceModifiedPredicate`. All four methods of the embedded
`predicate.Funcs` are overridden in the file. -/
structure referenceModifiedPredicate where
  ObjectReference : ObjectReference
deriving DecidableEq, Repr

/-- The method `Update` (lines 183-188), on the new object of the event. -/
def referenceModifiedPredicate.Update (p : referenceModifiedPredicate) (e : UpdateEvent) :
    Bool :=
  if e.MetaNew.Name == p.ObjectReference.Name
      && e.MetaNew.Namespace == p.ObjectReference.Namespace then
    true
  else
    false

/-- The method `Create` (lines 190-195). -/
def referenceModifiedPredicate.Create (p : referenceModifiedPredicate) (e : CreateEvent) :
    Bool :=
  if e.Meta.Name == p.ObjectReference.Name
      && e.Meta.Namespace == p.ObjectReference.Namespace then
    true
  else
    false

/-- The method `Delete` (lines 197-200). -/
def referenceModifiedPredicate.Delete (_p : referenceModifiedPredicate) (_e : DeleteEvent) :
    Bool :=
  false

/-- The method `Generic` (lines 202-205). -/
def referenceModifiedPredicate.Generic (_p : referenceModifiedPredicate) (_e : GenericEvent) :
    Bool :=
  false

/-- The predicate interface: each kind of event is filtered by the method of the
same name; `true` lets the event through to the handler. -/
def referenceModifiedPredicate.passes (p : referenceModifiedPredicate) : Event → Bool
  | .Create e => p.Create e
  | .Update e => p.Update e
  | .Delete e => p.Delete e
  | .Generic e => p.Generic e

/-! ### Construction: watch registration -/

/-- One call of `controller.Watch`: the source kind object, the handler and the
predicate. -/
structure Watch where
  src : Unstructured
  handler : enqueueRequestForPatch
  predicate : referenceModifiedPredicate
deriving DecidableEq, Repr

/-- The manager and the controller it creates, as far as the constructor uses
them: whether `controller.New` fails, whether a `Watch` call fails (it may
depend on the watches registered before), and the two library functions
`ObjectReference.String` and `schema.FromAPIVersionAndKind`. -/
structure Manager where
  newController : String → Option GoError
  watch : List Watch → Watch → Option GoError
  refString : ObjectReference → String
  FromAPIVersionAndKind : String → String → GroupVersionKind

/-- What the constructor changes outside the reconciler: the types added to the
scheme and the watches registered on the controller, both oldest first. -/
structure Registry where
  knownTypes : List (GroupVersion × Unstructured) := []
  watches : List Watch := []
deriving DecidableEq, Repr

/-- The struct `LockedPatchReconciler`; `statusChange` is `none` for a nil
channel and `parentObject` is the payload of the notifications. -/
structure LockedPatchReconciler where
  Patch : Patch
  status : PatchStatus := {}
  statusChange : Option Unit := none
  parentObject : ObjectMeta

/-- The package variable `controllername`. -/
def controllername : String := "controller_patchlocker"

/-- The function `getKeyFromPatch` (lines 133-135). -/
def getKeyFromPatch (mgr : Manager) (patch : Patch) : String :=
  mgr.refString patch.TargetObjectRef

/-- The function `getGVKfromReference` (lines 137-139). -/
def getGVKfromReference (mgr : Manager) (objref : ObjectReference) : GroupVersionKind :=
  mgr.FromAPIVersionAndKind objref.APIVersion objref.Kind

/-- The function `objectRefToRuntimeType` (lines 141-148). -/
def objectRefToRuntimeType (objref : ObjectReference) : Unstructured :=
  let obj : Unstructured := {}
  let obj := { obj with Kind := objref.Kind }
  let obj := { obj with APIVersion := objref.APIVersion }
  let obj := { obj with Namespace := objref.Namespace }
  let obj := { obj with Name := objref.Name }
  obj

/-- The method `controller.Watch`: on success the watch is registered. -/
def Registry.Watch (mgr : Manager) (reg : Registry) (w : Watch) : Option GoError × Registry :=
  match mgr.watch reg.watches w with
  | some err => (some err, reg)
  | none => (none, { reg with watches := reg.watches ++ [w] })

/-- The method `AddKnownTypes` of the scheme. -/
def Registry.AddKnownTypes (reg : Registry) (gv : GroupVersion) (obj : Unstructured) :
    Registry :=
  { reg with knownTypes := reg.knownTypes ++ [(gv, obj)] }

/-- The loop `for _, sourceRef := range patch.SourceObjectRefs` of the
constructor (lines 110-128); `some err` is the early return. -/
def watchSources (mgr : Manager) (patch : Patch) :
    List ObjectReference → Registry → Option GoError × Registry
  | [], reg => (none, reg)
  | sourceRef :: rest, reg =>
    let gvk := getGVKfromReference mgr patch.TargetObjectRef
    let groupVersion : GroupVersion := { Group := gvk.Group, Version := gvk.Version }
    let obj := objectRefToRuntimeType patch.TargetObjectRef
    let reg := reg.AddKnownTypes groupVersion obj
    match reg.Watch mgr
        { src := obj
          handler := { Request := { Name := sourceRef.Name, Namespace := sourceRef.Namespace } }
          predicate := { ObjectReference := sourceRef } } with
    | (some err, reg) => (some err, reg)
    | (none, reg) => watchSources mgr patch rest reg

/-- The constructor `NewPatchLockerReconciler` (lines 74-131), from the registry
it finds to its result and the registry it leaves. -/
def NewPatchLockerReconciler (mgr : Manager) (patch : Patch) (statusChange : Option Unit)
    (parentObject : ObjectMeta) (reg : Registry) :
    Except GoError LockedPatchReconciler × Registry :=
  let reconciler : LockedPatchReconciler :=
    { Patch := patch, statusChange := statusChange, parentObject := parentObject }
  match mgr.newController (controllername ++ "_" ++ getKeyFromPatch mgr patch) with
  | some err => (.error err, reg)
  | none =>
    let gvk := getGVKfromReference mgr patch.TargetObjectRef
    let groupVersion : GroupVersion := { Group := gvk.Group, Version := gvk.Version }
    let obj := objectRefToRuntimeType patch.TargetObjectRef
    let reg := reg.AddKnownTypes groupVersion obj
    match reg.Watch mgr
        { src := obj
          handler := { Request := { Name := patch.TargetObjectRef.Name,
                                    Namespace := patch.TargetObjectRef.Namespace } }
          predicate := { ObjectReference := patch.TargetObjectRef } } with
    | (some err, reg) => (.error err, reg)
    | (none, reg) =>
      match watchSources mgr patch patch.SourceObjectRefs reg with
      | (some err, reg) => (.error err, reg)
      | (none, reg) => (.ok reconciler, reg)

/-! ### The object store and the libraries a reconcile cycle calls -/

/-- The struct `metav1.APIResource`; the default value is `metav1.APIResource{}`. -/
structure APIResource where
  Name : String := ""
  SingularName : String := ""
  Namespaced : Bool := false
  Group : String := ""
  Version : String := ""
  Kind : String := ""
  Verbs : List String := []
  ShortNames : List String := []
  Categories : List String := []
  StorageVersionHash : String := ""
deriving DecidableEq, Repr

/-- One call made by the reconciler to a collaborator, with its arguments. -/
inductive Call where
  | GetDiscoveryClient
  | ServerResourcesForGroupVersion (groupVersion : String)
  | GetDynamicClientOnAPIResource (res : APIResource)
  | Get (res : APIResource) (ns : Option String) (name : String)
  | Parse (name : String) (text : String)
  | FindResults (text : String) (data : Value)
  | Execute (data : List Value)
  | YAMLToJSON (y : String)
  | Patch (obj : Unstructured) (patchType : String) (data : String)
deriving DecidableEq, Repr

/-- Whether a call is a call of the patch endpoint of the store. -/
def Call.isPatch : Call → Bool
  | .Patch _ _ _ => true
  | _ => false

/-- The collaborators of a reconcile cycle, over a store whose state has type `σ`.
Discovery and `Get` read the store; `Patch` is the only call that changes it.
`Get` receives `some ns` when the dynamic client was scoped to a namespace.
`Parse` and `FindResults` are the two methods of a `jsonpath.JSONPath`, the
parsed expression being identified by its text. -/
structure Env (σ : Type) where
  FromAPIVersionAndKind : String → String → GroupVersionKind
  groupVersionString : GroupVersionKind → String
  GetDiscoveryClient : σ → Except GoError Unit
  ServerResourcesForGroupVersion : σ → String → Except GoError (List APIResource)
  GetDynamicClientOnAPIResource : σ → APIResource → Except GoError Unit
  Get : σ → APIResource → Option String → String → Except GoError Unstructured
  Parse : String → Option GoError
  FindResults : String → Value → Except GoError (List (List Value))
  YAMLToJSON : String → Except GoError String
  Patch : σ → Unstructured → String → String → Option GoError × σ
  Now : σ → Nat

/-- The world a cycle runs in: the store, the log of calls made so far (oldest
first) and the events sent so far on the `statusChange` channel. -/
structure World (σ : Type) where
  store : σ
  calls : List Call := []
  sent : List GenericEvent := []

/-- Record a call in the log. -/
def World.log {σ : Type} (w : World σ) (c : Call) : World σ :=
  { w with calls := w.calls ++ [c] }

/-! ### Reference resolver -/

/-- The test `strings.Contains(name, "/")`. -/
def containsSlash (name : String) : Bool := name.data.contains '/'

/-- The loop over `resList.APIResources` of `getAPIReourceForGVK` (lines
321-329): `res` is the variable the loop assigns, returned as it is when the
loop ends without a `break`. -/
def findAPIResource (gvk : GroupVersionKind) : List APIResource → APIResource → APIResource
  | [], res => res
  | resource :: rest, res =>
    if resource.Kind == gvk.Kind && !containsSlash resource.Name then
      let res := resource
      let res := { res with Namespaced := resource.Namespaced }
      let res := { res with Group := gvk.Group }
      let res := { res with Version := gvk.Version }
      res
    else
      findAPIResource gvk rest res

/-- The method `getAPIReourceForGVK` (lines 309-331). -/
def getAPIReourceForGVK {σ : Type} (env : Env σ) (gvk : GroupVersionKind) (w : World σ) :
    Except GoError APIResource × World σ :=
  let res : APIResource := {}
  let w := w.log .GetDiscoveryClient
  match env.GetDiscoveryClient w.store with
  | .error err => (.error err, w)
  | .ok _ =>
    let w := w.log (.ServerResourcesForGroupVersion (env.groupVersionString gvk))
    match env.ServerResourcesForGroupVersion w.store (env.groupVersionString gvk) with
    | .error err => (.error err, w)
    | .ok resList => (.ok (findAPIResource gvk resList res), w)

/-- The method `getReferecedObject` (lines 259-282). -/
def getReferecedObject {σ : Type} (env : Env σ) (objref : ObjectReference) (w : World σ) :
    Except GoError Unstructured × World σ :=
  match getAPIReourceForGVK env (env.FromAPIVersionAndKind objref.APIVersion objref.Kind) w with
  | (.error err, w) => (.error err, w)
  | (.ok res, w) =>
    let w := w.log (.GetDynamicClientOnAPIResource res)
    match env.GetDynamicClientOnAPIResource w.store res with
    | .error err => (.error err, w)
    | .ok _ =>
      let ns := if res.Namespaced then some objref.Namespace else none
      let w := w.log (.Get res ns objref.Name)
      match env.Get w.store res ns objref.Name with
      | .error err => (.error err, w)
      | .ok obj => (.ok obj, w)

/-! ### Field extractor -/

/-- The function `getSubMapFromObject` (lines 284-307). -/
def getSubMapFromObject {σ : Type} (env : Env σ) (obj : Unstructured) (fieldPath : String)
    (w : World σ) : Except GoError Value × World σ :=
  if fieldPath == "" then
    (.ok obj.UnstructuredContent, w)
  else
    let w := w.log (.Parse ("fieldPath:" ++ fieldPath) ("\x7b" ++ fieldPath ++ "\x7d"))
    match env.Parse ("\x7b" ++ fieldPath ++ "\x7d") with
    | some err => (.error err, w)
    | none =>
      let w := w.log (.FindResults ("\x7b" ++ fieldPath ++ "\x7d") obj.UnstructuredContent)
      match env.FindResults ("\x7b" ++ fieldPath ++ "\x7d") obj.UnstructuredContent with
      | .error err => (.error err, w)
      | .ok values =>
        match values with
        | (v :: _) :: _ => (.ok v, w)
        | _ => (.error (.new "jsonpath returned empty result"), w)

/-! ### Status reporter -/

/-- The method `setStatus` (lines 383-390). -/
def setStatus {σ : Type} (lpr : LockedPatchReconciler) (status : PatchStatus) (w : World σ) :
    LockedPatchReconciler × World σ :=
  let lpr := { lpr with status := status }
  match lpr.statusChange with
  | some _ => (lpr, { w with sent := w.sent ++ [{ Meta := lpr.parentObject }] })
  | none => (lpr, w)

/-- The method `GetStatus` (lines 392-394). -/
def GetStatus (lpr : LockedPatchReconciler) : PatchStatus :=
  lpr.status

/-- The method `manageError` (lines 362-371). -/
def manageError {σ : Type} (env : Env σ) (lpr : LockedPatchReconciler) (err : GoError)
    (w : World σ) : (Result × Option GoError) × LockedPatchReconciler × World σ :=
  let condition : PatchStatus :=
    { Type_ := some .Failure
      Status := some .ConditionTrue
      LastUpdateTime := env.Now w.store
      Message := err.Error }
  let (lpr, w) := setStatus lpr condition w
  (({}, some err), lpr, w)

/-- The method `manageSuccess` (lines 373-381). -/
def manageSuccess {σ : Type} (env : Env σ) (lpr : LockedPatchReconciler) (w : World σ) :
    (Result × Option GoError) × LockedPatchReconciler × World σ :=
  let condition : PatchStatus :=
    { Type_ := some .Enforcing
      Status := some .ConditionTrue
      LastUpdateTime := env.Now w.store }
  let (lpr, w) := setStatus lpr condition w
  (({}, none), lpr, w)

/-! ### Reconcile loop -/

/-- The loop `for _, objref := range lpr.SourceObjectRefs` of `Reconcile` (lines
215-227): `sourceMaps` is the slice built so far; an error is the early return. -/
def gatherSourceMaps {σ : Type} (env : Env σ) :
    List ObjectReference → List Value → World σ → Except GoError (List Value) × World σ
  | [], sourceMaps, w => (.ok sourceMaps, w)
  | objref :: rest, sourceMaps, w =>
    match getReferecedObject env objref w with
    | (.error err, w) => (.error err, w)
    | (.ok sourceObj, w) =>
      match getSubMapFromObject env sourceObj objref.FieldPath w with
      | (.error err, w) => (.error err, w)
      | (.ok sourceMap, w) => gatherSourceMaps env rest (sourceMaps ++ [sourceMap]) w

/-- The part of `Reconcile` after the sources are gathered (lines 229-256):
render, convert, apply. -/
def applyPatch {σ : Type} (env : Env σ) (lpr : LockedPatchReconciler) (targetObj : Unstructured)
    (sourceMaps : List Value) (w : World σ) :
    (Result × Option GoError) × LockedPatchReconciler × World σ :=
  let w := w.log (.Execute sourceMaps)
  match lpr.Patch.Template.Execute sourceMaps with
  | .error err => manageError env lpr err w
  | .ok b =>
    let w := w.log (.YAMLToJSON b)
    match env.YAMLToJSON b with
    | .error err => manageError env lpr err w
    | .ok bb =>
      let w := w.log (.Patch targetObj lpr.Patch.PatchType bb)
      match env.Patch w.store targetObj lpr.Patch.PatchType bb with
      | (some err, store) => manageError env lpr err { w with store := store }
      | (none, store) => manageSuccess env lpr { w with store := store }

/-- The method `Reconcile` (lines 207-257); the request is not read. -/
def Reconcile {σ : Type} (env : Env σ) (lpr : LockedPatchReconciler) (_request : Request)
    (w : World σ) : (Result × Option GoError) × LockedPatchReconciler × World σ :=
  match getReferecedObject env lpr.Patch.TargetObjectRef w with
  | (.error err, w) => manageError env lpr err w
  | (.ok targetObj, w) =>
    match gatherSourceMaps env lpr.Patch.SourceObjectRefs [] w with
    | (.error err, w) => manageError env lpr err w
    | (.ok sourceMaps, w) => applyPatch env lpr targetObj sourceMaps w

/-! ### Relaxed path expressions

`jsonRegexp` is a compiled `regexp.Regexp`. The embedding has the syntax tree of
the pattern and a backtracking matcher with Go's leftmost-first preference: an
alternation prefers its left branch, `?` and `+` prefer to take more. -/

/-- Syntax of the patterns: the constructs `jsonRegexp` is written with. -/
inductive Regex where
  | beginText
  | endText
  | lit (a : Char)
  | notIn (cs : List Char)
  | quest (r : Regex)
  | plus (r : Regex)
  | cat (r₁ r₂ : Regex)
  | alt (r₁ r₂ : Regex)
  | group (i : Nat) (r : Regex)
deriving Repr

/-- A position in the text: the number of characters before it and the
characters from it on. -/
structure Pos where
  idx : Nat
  rest : List Char
deriving DecidableEq, Repr

/-- The text captured by each group so far, by group number. -/
abbrev Caps := List (Option (List Char))

/-- What remains to be matched after a sub-pattern, as a function of where the
sub-pattern ended. -/
abbrev Cont := Pos → Caps → Option Caps

/-- Greedy iteration `r+`, `step` being the matcher of `r`: after one match of
`r` another iteration is tried first, the continuation second. An iteration that
consumed nothing is not repeated; the counter starts at the length of the text
left, which bounds the number of consuming iterations. -/
def plusLoop (step : Pos → Caps → Cont → Option Caps) : Nat → Pos → Caps → Cont → Option Caps
  | 0, p, c, k => step p c k
  | n + 1, p, c, k =>
    step p c (fun p₁ c₁ =>
      match (if p₁.rest.length < p.rest.length then plusLoop step n p₁ c₁ k else none) with
      | some m => some m
      | none => k p₁ c₁)

/-- Backtracking matcher: the first match in preference order of `r` at `p`
followed by `k`. -/
def Regex.run : Regex → Pos → Caps → Cont → Option Caps
  | .beginText, p, c, k => if p.idx == 0 then k p c else none
  | .endText, p, c, k => if p.rest.isEmpty then k p c else none
  | .lit a, p, c, k =>
    match p.rest with
    | x :: xs => if x == a then k ⟨p.idx + 1, xs⟩ c else none
    | [] => none
  | .notIn cs, p, c, k =>
    match p.rest with
    | x :: xs => if cs.contains x then none else k ⟨p.idx + 1, xs⟩ c
    | [] => none
  | .quest r, p, c, k =>
    match r.run p c k with
    | some m => some m
    | none => k p c
  | .plus r, p, c, k => plusLoop (fun p₁ c₁ k₁ => r.run p₁ c₁ k₁) p.rest.length p c k
  | .cat r₁ r₂, p, c, k => r₁.run p c (fun p₁ c₁ => r₂.run p₁ c₁ k)
  | .alt r₁ r₂, p, c, k =>
    match r₁.run p c k with
    | some m => some m
    | none => r₂.run p c k
  | .group i r, p, c, k =>
    r.run p c (fun p₁ c₁ => k p₁ (c₁.set i (some (p.rest.take (p₁.idx - p.idx)))))

/-- A compiled pattern with its number of capturing groups. -/
structure Regexp where
  prog : Regex
  numSubexp : Nat

/-- A match starting at the given position; group 0 is the whole match. -/
def Regexp.matchAt (re : Regexp) (idx : Nat) (rest : List Char) : Option Caps :=
  re.prog.run ⟨idx, rest⟩ (List.replicate (re.numSubexp + 1) none)
    (fun p c => some (c.set 0 (some (rest.take (p.idx - idx)))))

/-- The leftmost match: start positions are tried from left to right. -/
def Regexp.findFrom (re : Regexp) : Nat → List Char → Option Caps
  | idx, [] => re.matchAt idx []
  | idx, x :: xs =>
    match re.matchAt idx (x :: xs) with
    | some c => some c
    | none => re.findFrom (idx + 1) xs

/-- The method `FindStringSubmatch`: `none` is the nil slice; a group that took
no part in the match gives the empty string. -/
def Regexp.FindStringSubmatch (re : Regexp) (s : String) : Option (List String) :=
  (re.findFrom 0 s.data).map
    (fun c => c.map (fun g => match g with | some t => String.mk t | none => ""))

/-- The compiled pattern `^\{\.?([^{}]+)\}$|^\.?([^{}]+)$`. -/
def jsonRegexp : Regexp :=
  { prog :=
      .alt
        (.cat .beginText (.cat (.lit '{') (.cat (.quest (.lit '.'))
          (.cat (.group 1 (.plus (.notIn ['{', '}']))) (.cat (.lit '}') .endText)))))
        (.cat .beginText (.cat (.quest (.lit '.'))
          (.cat (.group 2 (.plus (.notIn ['{', '}']))) .endText)))
    numSubexp := 2 }

/-- The formatting `%v` of a slice of strings. -/
def fmtSlice (l : List String) : String := "[" ++ " ".intercalate l ++ "]"

/-- The function `relaxedJSONPathExpression` (lines 342-360). -/
def relaxedJSONPathExpression (pathExpression : String) : Except GoError String :=
  if pathExpression.length == 0 then
    .ok pathExpression
  else
    match jsonRegexp.FindStringSubmatch pathExpression with
    | none =>
      .error (.new ("unexpected path string, expected a \x27name1.name2\x27 or "
        ++ "\x27.name1.name2\x27 or \x27\x7bname1.name2\x7d\x27 or "
        ++ "\x27\x7b.name1.name2\x7d\x27"))
    | some submatches =>
      if submatches.length != 3 then
        .error (.new ("unexpected submatch list: " ++ fmtSlice submatches))
      else
        let fieldSpec :=
          if (submatches.getD 1 "").length != 0 then submatches.getD 1 ""
          else submatches.getD 2 ""
        .ok ("\x7b." ++ fieldSpec ++ "\x7d")

/-! ### Vocabulary of the statements -/

/-- The characters a field may hold: neither brace. -/
def braces : List Char := ['{', '}']

/-- The reconcile key made of a reference's namespace and name. -/
def keyOf (r : ObjectReference) : Request := { Namespace := r.Namespace, Name := r.Name }

/-- The watch the constructor hands to `controller.Watch` for the target. -/
def targetWatch (patch : Patch) : Watch :=
  { src := objectRefToRuntimeType patch.TargetObjectRef
    handler := { Request := { Name := patch.TargetObjectRef.Name,
                              Namespace := patch.TargetObjectRef.Namespace } }
    predicate := { ObjectReference := patch.TargetObjectRef } }

/-- The watch the source loop hands to `controller.Watch` for a source. -/
def sourceWatch (patch : Patch) (sourceRef : ObjectReference) : Watch :=
  { src := objectRefToRuntimeType patch.TargetObjectRef
    handler := { Request := { Name := sourceRef.Name, Namespace := sourceRef.Namespace } }
    predicate := { ObjectReference := sourceRef } }

/-- The registry after the scheme learnt the target's type. -/
def withTargetType (mgr : Manager) (patch : Patch) (reg : Registry) : Registry :=
  reg.AddKnownTypes
    { Group := (getGVKfromReference mgr patch.TargetObjectRef).Group
      Version := (getGVKfromReference mgr patch.TargetObjectRef).Version }
    (objectRefToRuntimeType patch.TargetObjectRef)

/-- The expressions handed to the path parser in a call log, oldest first. -/
def parserInputs (calls : List Call) : List String :=
  calls.filterMap (fun c => match c with
    | .Parse _ text => some text
    | _ => none)

/-- The expressions `getSubMapFromObject` hands to the path parser during one
call. -/
def handedToParser {σ : Type} (env : Env σ) (obj : Unstructured) (fieldPath : String)
    (w : World σ) : List String :=
  (parserInputs (getSubMapFromObject env obj fieldPath w).2.calls).drop
    (parserInputs w.calls).length

/-- What the parser and the evaluator give for an expression on a structured
content: the parse error, the evaluation error, the first value of the first
result list, or the error for an empty result. -/
def firstResult {σ : Type} (env : Env σ) (data : Value) (text : String) : Except GoError Value :=
  match env.Parse text with
  | some err => .error err
  | none =>
    match env.FindResults text data with
    | .error err => .error err
    | .ok ((v :: _) :: _) => .ok v
    | .ok _ => .error (.new "jsonpath returned empty result")

/-- The stages of a reconcile cycle at which an error can arise. -/
inductive Stage where
  | fetchTarget
  | fetchSource
  | extract
  | render
  | convert
  | apply
deriving DecidableEq, Repr

/-- `Gathered env refs w maps w'`: starting in `w`, every reference of `refs` is
fetched and its field path extracted, in order, without error; `maps` are the
extracted values and `w'` is the world afterwards. -/
inductive Gathered {σ : Type} (env : Env σ) :
    List ObjectReference → World σ → List Value → World σ → Prop where
  | nil (w : World σ) : Gathered env [] w [] w
  | cons {objref : ObjectReference} {rest : List ObjectReference} {w w₁ w₂ w₃ : World σ}
      {sourceObj : Unstructured} {sourceMap : Value} {maps : List Value} :
      getReferecedObject env objref w = (.ok sourceObj, w₁) →
      getSubMapFromObject env sourceObj objref.FieldPath w₁ = (.ok sourceMap, w₂) →
      Gathered env rest w₂ maps w₃ →
      Gathered env (objref :: rest) w (sourceMap :: maps) w₃

/-- `StageFails env lpr w stage e`: in the cycle of `lpr` started in world `w`,
every stage before `stage` succeeds and `stage` fails with the error `e`. -/
inductive StageFails {σ : Type} (env : Env σ) (lpr : LockedPatchReconciler) (w : World σ) :
    Stage → GoError → Prop where
  | fetchTarget {e : GoError} {w₁ : World σ} :
      getReferecedObject env lpr.Patch.TargetObjectRef w = (.error e, w₁) →
      StageFails env lpr w .fetchTarget e
  | fetchSource {e : GoError} {targetObj : Unstructured} {w₁ w₂ w₃ : World σ}
      {before after : List ObjectReference} {objref : ObjectReference} {maps : List Value} :
      getReferecedObject env lpr.Patch.TargetObjectRef w = (.ok targetObj, w₁) →
      lpr.Patch.SourceObjectRefs = before ++ objref :: after →
      Gathered env before w₁ maps w₂ →
      getReferecedObject env objref w₂ = (.error e, w₃) →
      StageFails env lpr w .fetchSource e
  | extract {e : GoError} {targetObj sourceObj : Unstructured} {w₁ w₂ w₃ w₄ : World σ}
      {before after : List ObjectReference} {objref : ObjectReference} {maps : List Value} :
      getReferecedObject env lpr.Patch.TargetObjectRef w = (.ok targetObj, w₁) →
      lpr.Patch.SourceObjectRefs = before ++ objref :: after →
      Gathered env before w₁ maps w₂ →
      getReferecedObject env objref w₂ = (.ok sourceObj, w₃) →
      getSubMapFromObject env sourceObj objref.FieldPath w₃ = (.error e, w₄) →
      StageFails env lpr w .extract e
  | render {e : GoError} {targetObj : Unstructured} {w₁ w₂ : World σ} {maps : List Value} :
      getReferecedObject env lpr.Patch.TargetObjectRef w = (.ok targetObj, w₁) →
      Gathered env lpr.Patch.SourceObjectRefs w₁ maps w₂ →
      lpr.Patch.Template.Execute maps = .error e →
      StageFails env lpr w .render e
  | convert {e : GoError} {targetObj : Unstructured} {w₁ w₂ : World σ} {maps : List Value}
      {b : String} :
      getReferecedObject env lpr.Patch.TargetObjectRef w = (.ok targetObj, w₁) →
      Gathered env lpr.Patch.SourceObjectRefs w₁ maps w₂ →
      lpr.Patch.Template.Execute maps = .ok b →
      env.YAMLToJSON b = .error e →
      StageFails env lpr w .convert e
  | apply {e : GoError} {targetObj : Unstructured} {w₁ w₂ : World σ} {maps : List Value}
      {b bb : String} :
      getReferecedObject env lpr.Patch.TargetObjectRef w = (.ok targetObj, w₁) →
      Gathered env lpr.Patch.SourceObjectRefs w₁ maps w₂ →
      lpr.Patch.Template.Execute maps = .ok b →
      env.YAMLToJSON b = .ok bb →
      (env.Patch w₂.store targetObj lpr.Patch.PatchType bb).1 = some e →
      StageFails env lpr w .apply e

/-- `CycleSucceeds env lpr w`: in the cycle of `lpr` started in world `w` the
target and all sources are fetched, every field path is extracted, the template
renders, the text converts and the store accepts the patch. -/
inductive CycleSucceeds {σ : Type} (env : Env σ) (lpr : LockedPatchReconciler) (w : World σ) :
    Prop where
  | intro {targetObj : Unstructured} {w₁ w₂ : World σ} {maps : List Value} {b bb : String} :
      getReferecedObject env lpr.Patch.TargetObjectRef w = (.ok targetObj, w₁) →
      Gathered env lpr.Patch.SourceObjectRefs w₁ maps w₂ →
      lpr.Patch.Template.Execute maps = .ok b →
      env.YAMLToJSON b = .ok bb →
      (env.Patch w₂.store targetObj lpr.Patch.PatchType bb).1 = none →
      CycleSucceeds env lpr w

/-- `NoPatchSince w w'`: from `w` to `w'` the store is the same, and the calls
made in between hold no call of the patch endpoint. -/
def NoPatchSince {σ : Type} (w w' : World σ) : Prop :=
  w'.store = w.store ∧ ∃ new, w'.calls = w.calls ++ new ∧ ∀ c ∈ new, c.isPatch = false

/-! ### An example configuration and store -/

/-- A target of kind Deployment. -/
def webDeployment : ObjectReference :=
  { Kind := "Deployment", APIVersion := "apps/v1", Namespace := "prod", Name := "web" }

/-- A source of kind ConfigMap, in another namespace. -/
def settingsConfigMap : ObjectReference :=
  { Kind := "ConfigMap", APIVersion := "v1", Namespace := "config", Name := "settings",
    FieldPath := ".data" }

/-- A reference to a kind the discovery list of `v1` does not hold. -/
def secretRef : ObjectReference :=
  { Kind := "Secret", APIVersion := "v1", Namespace := "config", Name := "db-password" }

/-- The library function `schema.FromAPIVersionAndKind` on the two API versions
of the example. -/
def exampleFromAPIVersionAndKind (apiVersion kind : String) : GroupVersionKind :=
  if apiVersion == "apps/v1" then { Group := "apps", Version := "v1", Kind := kind }
  else { Group := "", Version := apiVersion, Kind := kind }

/-- The method `String` of a group/version, as far as the example needs it. -/
def exampleGroupVersionString (gvk : GroupVersionKind) : String :=
  if gvk.Group == "" then gvk.Version else gvk.Group ++ "/" ++ gvk.Version

/-- A template that prints the first parameter; as `index . 0` does, it fails on
an empty parameter list. -/
def replicasTemplate : Template :=
  { Execute := fun data =>
      match data with
      | .node json :: _ => .ok ("spec: \x7breplicas: " ++ json ++ "\x7d")
      | .content obj :: _ => .ok ("spec: \x7breplicas: " ++ obj.Name ++ "\x7d")
      | [] => .error (.ext 1 "error calling index: index out of range: 0") }

/-- The patch of the example: one ConfigMap source, a Deployment target. -/
def examplePatch : Patch :=
  { SourceObjectRefs := [settingsConfigMap]
    TargetObjectRef := webDeployment
    PatchType := "application/strategic-merge-patch+json"
    PatchTemplate := "spec: \x7breplicas: \x7b\x7bindex . 0\x7d\x7d\x7d"
    Template := replicasTemplate }

/-- A manager on which neither `controller.New` nor `Watch` fails. -/
def exampleManager : Manager :=
  { newController := fun _ => none
    watch := fun _ _ => none
    refString := fun r => r.Kind ++ "/" ++ r.Namespace ++ "/" ++ r.Name
    FromAPIVersionAndKind := exampleFromAPIVersionAndKind }

/-- The parent object of the example. -/
def exampleParent : ObjectMeta := { Name := "locker", Namespace := "prod" }

/-- The watches the constructor registers for the example patch. -/
def exampleWatches : List Watch :=
  (NewPatchLockerReconciler exampleManager examplePatch none exampleParent {}).2.watches

/-- Discovery entry for pods. -/
def podsResource : APIResource :=
  { Name := "pods", SingularName := "pod", Namespaced := true, Kind := "Pod" }

/-- Discovery entry for configmaps. -/
def configMapsResource : APIResource :=
  { Name := "configmaps", SingularName := "configmap", Namespaced := true, Kind := "ConfigMap" }

/-- Discovery entry for the status subresource of deployments. -/
def deploymentsStatusResource : APIResource :=
  { Name := "deployments/status", Namespaced := true, Kind := "Deployment" }

/-- Discovery entry for deployments. -/
def deploymentsResource : APIResource :=
  { Name := "deployments", SingularName := "deployment", Namespaced := true,
    Kind := "Deployment" }

/-- The error of a fetch that finds nothing. -/
def notFound : GoError := .ext 404 "the server could not find the requested resource"

/-- The error of the example path parser. -/
def parseError : GoError := .ext 2 "unrecognized path expression"

/-- The error of the example conversion. -/
def yamlError : GoError := .ext 3 "yaml: found character that cannot start any token"

/-- The error of a rejected patch. -/
def patchRejected : GoError := .ext 409 "the object has been modified"

/-- A store holding a list of objects. Discovery knows the core group `v1` and
`apps/v1`; the path parser accepts only the canonical expression for the field
`data`; the conversion rejects a text holding a tab; a patch is recorded in the
patched object, and is rejected when its body is empty. -/
def exampleEnv : Env (List Unstructured) :=
  { FromAPIVersionAndKind := exampleFromAPIVersionAndKind
    groupVersionString := exampleGroupVersionString
    GetDiscoveryClient := fun _ => .ok ()
    ServerResourcesForGroupVersion := fun _ gv =>
      if gv == "v1" then .ok [podsResource, configMapsResource]
      else if gv == "apps/v1" then .ok [deploymentsStatusResource, deploymentsResource]
      else .error notFound
    GetDynamicClientOnAPIResource := fun _ _ => .ok ()
    Get := fun store res ns name =>
      match store.find? (fun o => o.Kind == res.Kind && o.Name == name
          && (ns == none || ns == some o.Namespace)) with
      | some o => .ok o
      | none => .error notFound
    Parse := fun text => if text == "\x7b.data\x7d" then none else some parseError
    FindResults := fun _ data =>
      match data with
      | .content obj =>
        match obj.Data.lookup "data" with
        | some v => .ok [[.node v]]
        | none => .ok []
      | .node _ => .ok []
    YAMLToJSON := fun y => if y.data.contains '\t' then .error yamlError else .ok y
    Patch := fun store obj _ data =>
      if data == "" then (some patchRejected, store)
      else (none, store.map (fun o =>
        if o.Kind == obj.Kind && o.Name == obj.Name && o.Namespace == obj.Namespace then
          { o with Data := ("patched", data) :: o.Data }
        else o))
    Now := fun _ => 0 }

/-- The ConfigMap of the example store. -/
def settingsObject : Unstructured :=
  { Kind := "ConfigMap", APIVersion := "v1", Namespace := "config", Name := "settings",
    Data := [("data", "3")] }

/-- The Deployment of the example store. -/
def webObject : Unstructured :=
  { Kind := "Deployment", APIVersion := "apps/v1", Namespace := "prod", Name := "web",
    Data := [("replicas", "1")] }

/-- The world before the example cycles: the two objects, no call made yet. -/
def exampleWorld : World (List Unstructured) := { store := [settingsObject, webObject] }

/-- The reconciler of the example patch, with a notification channel and a
Failure status left by an earlier cycle. -/
def exampleReconciler : LockedPatchReconciler :=
  { Patch := examplePatch
    status := { Type_ := some .Failure, Status := some .ConditionTrue, Message := "earlier" }
    statusChange := some ()
    parentObject := exampleParent }

/-- A reconciler whose only source is of a kind the store does not serve. -/
def secretReconciler : LockedPatchReconciler :=
  { Patch := { examplePatch with SourceObjectRefs := [secretRef] }
    parentObject := exampleParent }

/-- A reconciler without sources whose template indexes the first source. -/
def indexReconciler : LockedPatchReconciler :=
  { Patch := { examplePatch with SourceObjectRefs := [] }
    parentObject := exampleParent }

/-- The request handed to the example cycles. -/
def exampleRequest : Request := keyOf webDeployment

/-- The world after the target of the example was fetched. -/
def worldAfterTarget : World (List Unstructured) :=
  (getReferecedObject exampleEnv webDeployment exampleWorld).2

/-- The world after the source of the example was fetched and extracted. -/
def worldAfterSource : World (List Unstructured) :=
  (getSubMapFromObject exampleEnv settingsObject ".data"
    (getReferecedObject exampleEnv settingsConfigMap worldAfterTarget).2).2

/-! ## Theorems -/

/-! ### The model on concrete inputs -/

/-- The four forms and three other inputs evaluated: a lone dot between braces
is taken as the field, and a text holding a brace in the middle is refused. -/
theorem relaxedJSONPathExpression_examples :
    relaxedJSONPathExpression "metadata.name" = .ok "\x7b.metadata.name\x7d"
    ∧ relaxedJSONPathExpression ".metadata.name" = .ok "\x7b.metadata.name\x7d"
    ∧ relaxedJSONPathExpression "\x7bmetadata.name\x7d" = .ok "\x7b.metadata.name\x7d"
    ∧ relaxedJSONPathExpression "\x7b.metadata.name\x7d" = .ok "\x7b.metadata.name\x7d"
    ∧ relaxedJSONPathExpression "\x7b.\x7d" = .ok "\x7b..\x7d"
    ∧ relaxedJSONPathExpression "" = .ok ""
    ∧ (relaxedJSONPathExpression "a\x7bb").toOption = none :=
  ⟨rfl, rfl, rfl, rfl, rfl, rfl, rfl⟩

/-- The calls of the successful example cycle, in order. -/
theorem exampleReconciler_calls :
    (Reconcile exampleEnv exampleReconciler exampleRequest exampleWorld).2.2.calls
      = [.GetDiscoveryClient, .ServerResourcesForGroupVersion "apps/v1",
          .GetDynamicClientOnAPIResource { deploymentsResource with Group := "apps", Version := "v1" },
          .Get { deploymentsResource with Group := "apps", Version := "v1" } (some "prod") "web",
          .GetDiscoveryClient, .ServerResourcesForGroupVersion "v1",
          .GetDynamicClientOnAPIResource { configMapsResource with Version := "v1" },
          .Get { configMapsResource with Version := "v1" } (some "config") "settings",
          .Parse "fieldPath:.data" "\x7b.data\x7d",
          .FindResults "\x7b.data\x7d" (.content settingsObject),
          .Execute [.node "3"],
          .YAMLToJSON "spec: \x7breplicas: 3\x7d",
          .Patch webObject "application/strategic-merge-patch+json" "spec: \x7breplicas: 3\x7d"] := by
  rfl

/-- The state of the store after the successful example cycle: the patch is
recorded in the target and nowhere else. -/
theorem exampleReconciler_store :
    (Reconcile exampleEnv exampleReconciler exampleRequest exampleWorld).2.2.store
      = [settingsObject,
          { webObject with Data := [("patched", "spec: \x7breplicas: 3\x7d"), ("replicas", "1")] }]
    ∧ (Reconcile exampleEnv exampleReconciler exampleRequest exampleWorld).2.2.sent
      = [{ Meta := exampleParent }] := by
  exact ⟨by rfl, by rfl⟩

/-! ### The matcher on the pattern of `jsonRegexp` -/

theorem notIn_run_cons (cs : List Char) (x : Char) (xs : List Char) (i : Nat) (c : Caps)
    (k : Cont) (hx : cs.contains x = false) :
    (Regex.notIn cs).run ⟨i, x :: xs⟩ c k = k ⟨i + 1, xs⟩ c := by
  simp only [Regex.run, hx, Bool.false_eq_true, if_false]

theorem notIn_run_stop (cs : List Char) (t : List Char) (i : Nat) (c : Caps) (k : Cont)
    (ht : ∀ y ∈ t.head?, cs.contains y = true) :
    (Regex.notIn cs).run ⟨i, t⟩ c k = none := by
  cases t with
  | nil => simp [Regex.run]
  | cons y ys =>
    have hy : cs.contains y = true := ht y (by simp)
    simp only [Regex.run, hy, if_true]

theorem plusLoop_stop (cs : List Char) (t : List Char) (n i : Nat) (c : Caps) (k : Cont)
    (ht : ∀ y ∈ t.head?, cs.contains y = true) :
    plusLoop (fun p₁ c₁ k₁ => (Regex.notIn cs).run p₁ c₁ k₁) n ⟨i, t⟩ c k = none := by
  cases n with
  | zero => simp only [plusLoop]; exact notIn_run_stop cs t i c k ht
  | succ n => simp only [plusLoop]; exact notIn_run_stop cs t i c _ ht

/-- The greedy loop over a character class takes the whole run of characters of the
class when the continuation accepts the position after the run. -/
theorem plusLoop_fields (cs : List Char) (t : List Char)
    (ht : ∀ y ∈ t.head?, cs.contains y = true) (k : Cont) :
    ∀ (s : List Char) (n i : Nat) (c : Caps), s ≠ [] → (∀ x ∈ s, cs.contains x = false) →
      (s ++ t).length ≤ n + 1 → (k ⟨i + s.length, t⟩ c).isSome = true →
      plusLoop (fun p₁ c₁ k₁ => (Regex.notIn cs).run p₁ c₁ k₁) n ⟨i, s ++ t⟩ c k
        = k ⟨i + s.length, t⟩ c := by
  intro s
  induction s with
  | nil => intro n i c h; exact absurd rfl h
  | cons a s ih =>
    intro n i c _ hs hn hk
    have ha : cs.contains a = false := hs a (by simp)
    cases n with
    | zero =>
      have hlen : s.length + t.length = 0 := by
        simp only [List.cons_append, List.length_cons, List.length_append] at hn; omega
      have hs0 : s = [] := List.length_eq_zero.mp (by omega)
      have ht0 : t = [] := List.length_eq_zero.mp (by omega)
      subst hs0; subst ht0
      simp only [plusLoop, List.append_nil, List.length_singleton]
      exact notIn_run_cons cs a [] i c k ha
    | succ n =>
      simp only [plusLoop, List.cons_append]
      rw [notIn_run_cons cs a (s ++ t) i c _ ha]
      have hlt : (s ++ t).length < (a :: (s ++ t)).length := by simp
      simp only [hlt, if_true]
      cases s with
      | nil =>
        simp only [List.nil_append, List.length_singleton]
        rw [plusLoop_stop cs t n (i + 1) c k ht]
      | cons b s =>
        have hrec := ih n (i + 1) c (by simp) (fun x hx => hs x (by simp [hx]))
          (by simp only [List.cons_append, List.length_cons, List.length_append] at hn ⊢; omega)
          (by
            have : i + 1 + (b :: s).length = i + (a :: b :: s).length := by
              simp only [List.length_cons]; omega
            rw [this]; exact hk)
        have hidx : i + 1 + (b :: s).length = i + (a :: b :: s).length := by
          simp only [List.length_cons]; omega
        rw [hrec, hidx]
        cases hval : k ⟨i + (a :: b :: s).length, t⟩ c with
        | none => rw [hval] at hk; simp at hk
        | some m => rfl

/-- A capturing group around the greedy loop captures the run. -/
theorem group_plus_run (cs : List Char) (g : Nat) (s t : List Char) (i : Nat) (c : Caps)
    (k : Cont) (hne : s ≠ []) (hs : ∀ x ∈ s, cs.contains x = false)
    (ht : ∀ y ∈ t.head?, cs.contains y = true)
    (hk : (k ⟨i + s.length, t⟩ (c.set g (some s))).isSome = true) :
    (Regex.group g (.plus (.notIn cs))).run ⟨i, s ++ t⟩ c k
      = k ⟨i + s.length, t⟩ (c.set g (some s)) := by
  have hloop := plusLoop_fields cs t ht
    (fun p₁ c₁ => k p₁ (c₁.set g (some ((s ++ t).take (p₁.idx - i)))))
    s (s ++ t).length i c hne hs (by omega) (by simpa using hk)
  simp only [Regex.run] at hloop ⊢
  rw [hloop]
  simp

theorem run_cat (r₁ r₂ : Regex) (p : Pos) (c : Caps) (k : Cont) :
    (Regex.cat r₁ r₂).run p c k = r₁.run p c (fun p₁ c₁ => r₂.run p₁ c₁ k) := by
  simp only [Regex.run]

theorem run_alt (r₁ r₂ : Regex) (p : Pos) (c : Caps) (k : Cont) :
    (Regex.alt r₁ r₂).run p c k =
      (match r₁.run p c k with
        | some m => some m
        | none => r₂.run p c k) := by
  simp only [Regex.run]

theorem run_beginText (rest : List Char) (c : Caps) (k : Cont) :
    Regex.beginText.run ⟨0, rest⟩ c k = k ⟨0, rest⟩ c := by
  simp [Regex.run]

theorem run_endText (i : Nat) (c : Caps) (k : Cont) :
    Regex.endText.run ⟨i, []⟩ c k = k ⟨i, []⟩ c := by
  simp [Regex.run]

theorem run_lit_eq (a : Char) (xs : List Char) (i : Nat) (c : Caps) (k : Cont) :
    (Regex.lit a).run ⟨i, a :: xs⟩ c k = k ⟨i + 1, xs⟩ c := by
  simp [Regex.run]

theorem run_lit_ne (a x : Char) (xs : List Char) (i : Nat) (c : Caps) (k : Cont)
    (h : x ≠ a) : (Regex.lit a).run ⟨i, x :: xs⟩ c k = none := by
  simp [Regex.run, h]

theorem run_quest_skip (a x : Char) (xs : List Char) (i : Nat) (c : Caps) (k : Cont)
    (h : x ≠ a) : (Regex.quest (.lit a)).run ⟨i, x :: xs⟩ c k = k ⟨i, x :: xs⟩ c := by
  simp only [Regex.run, beq_iff_eq, h, if_false]

theorem run_quest_take (a : Char) (xs : List Char) (i : Nat) (c : Caps) (k : Cont)
    (h : (k ⟨i + 1, xs⟩ c).isSome = true) :
    (Regex.quest (.lit a)).run ⟨i, a :: xs⟩ c k = k ⟨i + 1, xs⟩ c := by
  simp only [Regex.run, beq_self_eq_true, if_true]
  cases hval : k ⟨i + 1, xs⟩ c with
  | none => rw [hval] at h; simp at h
  | some m => rfl

theorem braces_contains_of_not_mem (s : List Char) (h₁ : '{' ∉ s) (h₂ : '}' ∉ s) :
    ∀ x ∈ s, braces.contains x = false := by
  intro x hx
  have hx₁ : x ≠ '{' := fun h => h₁ (h ▸ hx)
  have hx₂ : x ≠ '}' := fun h => h₂ (h ▸ hx)
  simp [braces, hx₁, hx₂]

/-- The second alternative of the pattern after its optional dot: a run of
field characters up to the end of the text. -/
theorem run_field_to_end (s : List Char) (i : Nat) (c : Caps) (k : Cont) (hne : s ≠ [])
    (hs : ∀ x ∈ s, braces.contains x = false)
    (hk : (k ⟨i + s.length, []⟩ (c.set 2 (some s))).isSome = true) :
    (Regex.group 2 (.plus (.notIn braces))).run ⟨i, s⟩ c
        (fun p₁ c₁ => Regex.endText.run p₁ c₁ k)
      = k ⟨i + s.length, []⟩ (c.set 2 (some s)) := by
  have h := group_plus_run braces 2 s [] i c (fun p₁ c₁ => Regex.endText.run p₁ c₁ k) hne hs
    (by simp) (by show (Regex.endText.run _ _ k).isSome = true; rw [run_endText]; exact hk)
  rw [List.append_nil] at h
  rw [h]
  exact run_endText _ _ k

/-- The first alternative of the pattern after its optional dot: a run of field
characters, the closing brace, the end of the text. -/
theorem run_field_to_brace (s : List Char) (i : Nat) (c : Caps) (k : Cont) (hne : s ≠ [])
    (hs : ∀ x ∈ s, braces.contains x = false)
    (hk : (k ⟨i + s.length + 1, []⟩ (c.set 1 (some s))).isSome = true) :
    (Regex.group 1 (.plus (.notIn braces))).run ⟨i, s ++ ['}']⟩ c
        (fun p₁ c₁ => (Regex.lit '}').run p₁ c₁ (fun p₂ c₂ => Regex.endText.run p₂ c₂ k))
      = k ⟨i + s.length + 1, []⟩ (c.set 1 (some s)) := by
  have hstep : (Regex.lit '}').run ⟨i + s.length, ['}']⟩ (c.set 1 (some s))
        (fun p₂ c₂ => Regex.endText.run p₂ c₂ k)
      = k ⟨i + s.length + 1, []⟩ (c.set 1 (some s)) := by
    rw [run_lit_eq, run_endText]
  have h := group_plus_run braces 1 s ['}'] i c
    (fun p₁ c₁ => (Regex.lit '}').run p₁ c₁ (fun p₂ c₂ => Regex.endText.run p₂ c₂ k)) hne hs
    (by simp [braces])
    (by
      show ((Regex.lit '}').run _ _ (fun p₂ c₂ => Regex.endText.run p₂ c₂ k)).isSome = true
      rw [hstep]; exact hk)
  rw [h]
  exact hstep

theorem jsonRegexp_prog :
    jsonRegexp.prog =
      .alt
        (.cat .beginText (.cat (.lit '{') (.cat (.quest (.lit '.'))
          (.cat (.group 1 (.plus (.notIn braces))) (.cat (.lit '}') .endText)))))
        (.cat .beginText (.cat (.quest (.lit '.'))
          (.cat (.group 2 (.plus (.notIn braces))) .endText))) := rfl

theorem matchAt_plain (a : Char) (s : List Char) (hdot : a ≠ '.')
    (hs : ∀ x ∈ a :: s, braces.contains x = false) :
    jsonRegexp.matchAt 0 (a :: s) = some [some (a :: s), none, some (a :: s)] := by
  have hopen : a ≠ '{' := by
    intro h
    have := hs a (by simp)
    simp [braces, h] at this
  unfold Regexp.matchAt
  rw [jsonRegexp_prog, run_alt, run_cat, run_beginText]
  simp only [run_cat, run_lit_ne '{' a s 0 _ _ hopen, run_beginText,
    run_quest_skip '.' a s 0 _ _ hdot]
  rw [run_field_to_end (a :: s) 0 _ _ (by simp) hs (by simp)]
  simp [jsonRegexp, List.replicate]

theorem matchAt_dot (s : List Char) (hne : s ≠ [])
    (hs : ∀ x ∈ s, braces.contains x = false) :
    jsonRegexp.matchAt 0 ('.' :: s) = some [some ('.' :: s), none, some s] := by
  unfold Regexp.matchAt
  rw [jsonRegexp_prog, run_alt, run_cat, run_beginText]
  simp only [run_cat, run_lit_ne '{' '.' s 0 _ _ (by decide), run_beginText]
  have hfield := fun k hk => run_field_to_end s 1 (List.replicate (jsonRegexp.numSubexp + 1) none)
    k hne hs hk
  rw [run_quest_take '.' s 0 _ _ (by rw [hfield _ (by simp)]; simp), hfield _ (by simp)]
  simp [jsonRegexp, List.replicate]
  omega

theorem matchAt_braces (a : Char) (s : List Char) (hdot : a ≠ '.')
    (hs : ∀ x ∈ a :: s, braces.contains x = false) :
    jsonRegexp.matchAt 0 ('{' :: ((a :: s) ++ ['}']))
      = some [some ('{' :: ((a :: s) ++ ['}'])), some (a :: s), none] := by
  unfold Regexp.matchAt
  rw [jsonRegexp_prog, run_alt, run_cat, run_beginText]
  simp only [run_cat, run_lit_eq, List.cons_append, run_quest_skip '.' a (s ++ ['}']) _ _ _ hdot]
  have hfield := fun k hk => run_field_to_brace (a :: s) 1
    (List.replicate (jsonRegexp.numSubexp + 1) none) k (by simp) hs hk
  simp only [List.cons_append] at hfield
  rw [hfield _ (by simp)]
  simp [jsonRegexp, List.replicate]
  omega

theorem matchAt_braces_dot (s : List Char) (hne : s ≠ [])
    (hs : ∀ x ∈ s, braces.contains x = false) :
    jsonRegexp.matchAt 0 ('{' :: '.' :: (s ++ ['}']))
      = some [some ('{' :: '.' :: (s ++ ['}'])), some s, none] := by
  unfold Regexp.matchAt
  rw [jsonRegexp_prog, run_alt, run_cat, run_beginText]
  simp only [run_cat, run_lit_eq]
  have hfield := fun k hk => run_field_to_brace s 2
    (List.replicate (jsonRegexp.numSubexp + 1) none) k hne hs hk
  rw [run_quest_take '.' (s ++ ['}']) 1 _ _ (by rw [hfield _ (by simp)]; simp),
    hfield _ (by simp)]
  simp [jsonRegexp, List.replicate]
  omega

theorem findFrom_of_matchAt (re : Regexp) (l : List Char) (c : Caps)
    (h : re.matchAt 0 l = some c) : re.findFrom 0 l = some c := by
  cases l with
  | nil => simpa [Regexp.findFrom] using h
  | cons x xs => simp [Regexp.findFrom, h]

/-- The result when the second group took part in the match and the first did not. -/
theorem relaxed_of_second_group (p : String) (whole f : List Char) (hp : p.data ≠ [])
    (h : jsonRegexp.matchAt 0 p.data = some [some whole, none, some f]) :
    relaxedJSONPathExpression p = .ok ("\x7b." ++ String.mk f ++ "\x7d") := by
  have hlen : p.length ≠ 0 := by
    intro h0
    exact hp (List.length_eq_zero.mp h0)
  simp [relaxedJSONPathExpression, Regexp.FindStringSubmatch, findFrom_of_matchAt _ _ _ h, hlen]

/-- The result when the first group took part in the match with a non-empty text. -/
theorem relaxed_of_first_group (p : String) (whole f : List Char) (hp : p.data ≠ [])
    (hf : f ≠ [])
    (h : jsonRegexp.matchAt 0 p.data = some [some whole, some f, none]) :
    relaxedJSONPathExpression p = .ok ("\x7b." ++ String.mk f ++ "\x7d") := by
  have hlen : p.length ≠ 0 := by
    intro h0
    exact hp (List.length_eq_zero.mp h0)
  simp [relaxedJSONPathExpression, Regexp.FindStringSubmatch, findFrom_of_matchAt _ _ _ h, hlen,
    hf]

/-- C7: for a non-empty `s` without braces that does not start with a dot,
`relaxedJSONPathExpression` returns the canonical expression made of an opening
brace, a dot, `s` and a closing brace, with no error, for each of the four inputs
`s`, dot-`s`, brace-`s`-brace and brace-dot-`s`-brace; for the empty string it
returns the empty string with no error. -/
theorem relaxedJSONPathExpression_four_forms (s : String) (hne : s ≠ "")
    (hopen : '{' ∉ s.data) (hclose : '}' ∉ s.data) (hdot : s.data.head? ≠ some '.') :
    relaxedJSONPathExpression s = .ok ("\x7b." ++ s ++ "\x7d")
    ∧ relaxedJSONPathExpression ("." ++ s) = .ok ("\x7b." ++ s ++ "\x7d")
    ∧ relaxedJSONPathExpression ("\x7b" ++ s ++ "\x7d") = .ok ("\x7b." ++ s ++ "\x7d")
    ∧ relaxedJSONPathExpression ("\x7b." ++ s ++ "\x7d") = .ok ("\x7b." ++ s ++ "\x7d")
    ∧ relaxedJSONPathExpression "" = .ok "" := by
  obtain ⟨l⟩ := s
  cases l with
  | nil => exact absurd rfl hne
  | cons a l =>
    have hs : ∀ x ∈ a :: l, braces.contains x = false :=
      braces_contains_of_not_mem (a :: l) hopen hclose
    have ha : a ≠ '.' := by
      intro h
      exact hdot (by simp [h])
    have hd₁ : ("." ++ (⟨a :: l⟩ : String)).data = '.' :: a :: l := rfl
    have hd₂ : ("\x7b" ++ (⟨a :: l⟩ : String) ++ "\x7d").data = '{' :: ((a :: l) ++ ['}']) := by
      simp [String.data_append]
    have hd₃ : ("\x7b." ++ (⟨a :: l⟩ : String) ++ "\x7d").data
        = '{' :: '.' :: ((a :: l) ++ ['}']) := by
      simp [String.data_append]
    refine ⟨?_, ?_, ?_, ?_, rfl⟩
    · exact relaxed_of_second_group ⟨a :: l⟩ (a :: l) (a :: l) (by simp)
        (matchAt_plain a l ha hs)
    · exact relaxed_of_second_group ("." ++ (⟨a :: l⟩ : String)) ('.' :: a :: l) (a :: l)
        (by rw [hd₁]; simp) (by rw [hd₁]; exact matchAt_dot (a :: l) (by simp) hs)
    · exact relaxed_of_first_group ("\x7b" ++ (⟨a :: l⟩ : String) ++ "\x7d")
        ('{' :: ((a :: l) ++ ['}'])) (a :: l) (by rw [hd₂]; simp) (by simp)
        (by rw [hd₂]; exact matchAt_braces a l ha hs)
    · exact relaxed_of_first_group ("\x7b." ++ (⟨a :: l⟩ : String) ++ "\x7d")
        ('{' :: '.' :: ((a :: l) ++ ['}'])) (a :: l) (by rw [hd₃]; simp) (by simp)
        (by rw [hd₃]; exact matchAt_braces_dot (a :: l) (by simp) hs)

/-- The four forms of the path `metadata.name`. -/
theorem relaxedJSONPathExpression_four_forms_witness :
    ("metadata.name" ≠ "" ∧ '{' ∉ "metadata.name".data ∧ '}' ∉ "metadata.name".data
      ∧ "metadata.name".data.head? ≠ some '.')
    ∧ (relaxedJSONPathExpression "metadata.name" = .ok ("\x7b." ++ "metadata.name" ++ "\x7d")
      ∧ relaxedJSONPathExpression ("." ++ "metadata.name")
          = .ok ("\x7b." ++ "metadata.name" ++ "\x7d")
      ∧ relaxedJSONPathExpression ("\x7b" ++ "metadata.name" ++ "\x7d")
          = .ok ("\x7b." ++ "metadata.name" ++ "\x7d")
      ∧ relaxedJSONPathExpression ("\x7b." ++ "metadata.name" ++ "\x7d")
          = .ok ("\x7b." ++ "metadata.name" ++ "\x7d")
      ∧ relaxedJSONPathExpression "" = .ok "") :=
  ⟨⟨by decide, by decide, by decide, by decide⟩,
    relaxedJSONPathExpression_four_forms "metadata.name" (by decide) (by decide) (by decide)
      (by decide)⟩

/-! ### Identity predicate and watch registration -/

/-- C4: for every reference `r` and every event, the predicate built on `r` lets
the event through exactly when it is a Create or an Update whose object (the new
object of an Update) has the name and the namespace of `r`; every Delete and every
Generic event is rejected. -/
theorem referenceModifiedPredicate_passes_iff (r : ObjectReference) (ev : Event) :
    ((referenceModifiedPredicate.mk r).passes ev = true ↔
      (∃ e : CreateEvent, ev = .Create e ∧ e.Meta.Name = r.Name ∧ e.Meta.Namespace = r.Namespace)
      ∨ (∃ e : UpdateEvent, ev = .Update e ∧ e.MetaNew.Name = r.Name
          ∧ e.MetaNew.Namespace = r.Namespace))
    ∧ (∀ e : DeleteEvent, (referenceModifiedPredicate.mk r).passes (.Delete e) = false)
    ∧ (∀ e : GenericEvent, (referenceModifiedPredicate.mk r).passes (.Generic e) = false) := by
  refine ⟨?_, fun _ => rfl, fun _ => rfl⟩
  cases ev with
  | Create e =>
    simp [referenceModifiedPredicate.passes, referenceModifiedPredicate.Create]
  | Update e =>
    simp [referenceModifiedPredicate.passes, referenceModifiedPredicate.Update]
  | Delete e =>
    simp [referenceModifiedPredicate.passes, referenceModifiedPredicate.Delete]
  | Generic e =>
    simp [referenceModifiedPredicate.passes, referenceModifiedPredicate.Generic]

/-- Every method of the handler adds the handler's own fixed request. -/
theorem handle_eq (e : enqueueRequestForPatch) (ev : Event) (q : Queue) :
    e.handle ev q = q ++ [e.Request] := by
  cases ev <;> rfl

theorem watchSources_cons (mgr : Manager) (patch : Patch) (r : ObjectReference)
    (rest : List ObjectReference) (reg : Registry) :
    watchSources mgr patch (r :: rest) reg =
      (match mgr.watch reg.watches (sourceWatch patch r) with
        | some err => (some err, withTargetType mgr patch reg)
        | none => watchSources mgr patch rest
            { withTargetType mgr patch reg with watches := reg.watches ++ [sourceWatch patch r] }) := by
  simp only [watchSources, Registry.Watch, Registry.AddKnownTypes, withTargetType, sourceWatch]
  cases mgr.watch reg.watches
    { src := objectRefToRuntimeType patch.TargetObjectRef
      handler := { Request := { Name := r.Name, Namespace := r.Namespace } }
      predicate := { ObjectReference := r } } <;> rfl

/-- The source loop of the constructor registers, in order, a watch per source
whose predicate is built on the source and whose handler holds the source's key;
it registers all of them unless a `Watch` call fails. -/
theorem watchSources_handlers (mgr : Manager) (patch : Patch) :
    ∀ (srcs : List ObjectReference) (reg : Registry),
      ∃ ws, (watchSources mgr patch srcs reg).2.watches = reg.watches ++ ws
        ∧ ws.map (fun w => (w.predicate.ObjectReference, w.handler.Request))
            <+: srcs.map (fun r => (r, keyOf r))
        ∧ (ws.length = srcs.length ∨ ∃ err, (watchSources mgr patch srcs reg).1 = some err) := by
  intro srcs
  induction srcs with
  | nil => intro reg; exact ⟨[], by simp [watchSources], by simp, Or.inl rfl⟩
  | cons r rest ih =>
    intro reg
    rw [watchSources_cons]
    cases hw : mgr.watch reg.watches (sourceWatch patch r) with
    | some err => exact ⟨[], by simp [withTargetType, Registry.AddKnownTypes], List.nil_prefix,
        Or.inr ⟨err, rfl⟩⟩
    | none =>
      obtain ⟨ws, h₁, h₂, h₃⟩ := ih
        { withTargetType mgr patch reg with watches := reg.watches ++ [sourceWatch patch r] }
      refine ⟨sourceWatch patch r :: ws, ?_, ?_, ?_⟩
      · simp only [h₁]; simp
      · simp only [List.map_cons]
        exact (List.prefix_cons_inj _).mpr h₂
      · rcases h₃ with h₃ | ⟨err, h₃⟩
        · exact Or.inl (by simp [h₃])
        · exact Or.inr ⟨err, h₃⟩

theorem NewPatchLockerReconciler_unfold (mgr : Manager) (patch : Patch)
    (statusChange : Option Unit) (parentObject : ObjectMeta) (reg : Registry)
    (hnew : mgr.newController (controllername ++ "_" ++ getKeyFromPatch mgr patch) = none)
    (hw : mgr.watch reg.watches (targetWatch patch) = none) :
    NewPatchLockerReconciler mgr patch statusChange parentObject reg =
      (match watchSources mgr patch patch.SourceObjectRefs
          { withTargetType mgr patch reg with watches := reg.watches ++ [targetWatch patch] } with
        | (some err, reg) => (.error err, reg)
        | (none, reg) =>
          (.ok { Patch := patch, statusChange := statusChange, parentObject := parentObject },
            reg)) := by
  simp only [targetWatch] at hw
  simp only [NewPatchLockerReconciler, hnew, Registry.Watch, Registry.AddKnownTypes, hw,
    withTargetType, targetWatch]

/-- C5, as the code has it: every watch the constructor registers carries a
handler that, for each of the four kinds of event, adds one fixed key to the
queue; the watches are registered in the order target, then sources, each
identified by the reference its predicate is built on; the key of the target's
watch is the target's namespace and name and the key of a source's watch is that
source's own namespace and name. All of them are registered unless the
constructor returns an error. -/
theorem NewPatchLockerReconciler_handler_keys (mgr : Manager) (patch : Patch)
    (statusChange : Option Unit) (parentObject : ObjectMeta) (reg : Registry) :
    ∃ ws,
      (NewPatchLockerReconciler mgr patch statusChange parentObject reg).2.watches
        = reg.watches ++ ws
      ∧ ws.map (fun w => (w.predicate.ObjectReference, w.handler.Request))
          <+: (patch.TargetObjectRef :: patch.SourceObjectRefs).map (fun r => (r, keyOf r))
      ∧ (ws.length = 1 + patch.SourceObjectRefs.length
          ∨ ∃ err, (NewPatchLockerReconciler mgr patch statusChange parentObject reg).1
              = .error err)
      ∧ ∀ w ∈ ws, ∀ (ev : Event) (q : Queue), w.handler.handle ev q = q ++ [w.handler.Request] := by
  cases hnew : mgr.newController (controllername ++ "_" ++ getKeyFromPatch mgr patch) with
  | some err =>
    exact ⟨[], by simp [NewPatchLockerReconciler, hnew], List.nil_prefix,
      Or.inr ⟨err, by simp [NewPatchLockerReconciler, hnew]⟩, by simp⟩
  | none =>
    cases hw : mgr.watch reg.watches (targetWatch patch) with
    | some err =>
      have hw' := hw
      simp only [targetWatch] at hw'
      exact ⟨[], by simp [NewPatchLockerReconciler, hnew, Registry.Watch, Registry.AddKnownTypes,
          hw'], List.nil_prefix,
        Or.inr ⟨err, by simp [NewPatchLockerReconciler, hnew, Registry.Watch,
          Registry.AddKnownTypes, hw']⟩, by simp⟩
    | none =>
      rw [NewPatchLockerReconciler_unfold mgr patch statusChange parentObject reg hnew hw]
      obtain ⟨ws, h₁, h₂, h₃⟩ := watchSources_handlers mgr patch patch.SourceObjectRefs
        { withTargetType mgr patch reg with watches := reg.watches ++ [targetWatch patch] }
      refine ⟨targetWatch patch :: ws, ?_, ?_, ?_, fun w _ ev q => handle_eq w.handler ev q⟩
      · cases hres : watchSources mgr patch patch.SourceObjectRefs
            { withTargetType mgr patch reg with watches := reg.watches ++ [targetWatch patch] } with
        | mk err reg' =>
          rw [hres] at h₁
          simp only at h₁
          cases err <;> simp [h₁]
      · simp only [List.map_cons]
        exact (List.prefix_cons_inj _).mpr h₂
      · rcases h₃ with h₃ | ⟨err, h₃⟩
        · exact Or.inl (by simp [h₃]; omega)
        · refine Or.inr ⟨err, ?_⟩
          cases hres : watchSources mgr patch patch.SourceObjectRefs
              { withTargetType mgr patch reg with watches := reg.watches ++ [targetWatch patch] } with
          | mk err' reg' =>
            rw [hres] at h₃
            simp only at h₃
            subst h₃
            rfl

/-- C5 as stated fails: for the example patch, whose target is `prod/web` and
whose source is `config/settings`, the handler of the second registered watch
adds the source's key `config/settings` on a Create, an Update, a Delete and a
Generic event alike, and that key is not the target's key. -/
theorem source_handler_enqueues_source_key :
    exampleWatches.map (fun w => w.handler.handle (.Create ⟨⟨"settings", "config"⟩⟩) [])
        = [[keyOf webDeployment], [keyOf settingsConfigMap]]
    ∧ exampleWatches.map (fun w => w.handler.handle (.Generic ⟨⟨"other", "other"⟩⟩) [])
        = [[keyOf webDeployment], [keyOf settingsConfigMap]]
    ∧ keyOf settingsConfigMap ≠ keyOf examplePatch.TargetObjectRef := by
  refine ⟨by rfl, by rfl, by decide⟩

/-- C6 fails on the code: for the example patch, whose target is a Deployment of
`apps/v1` and whose source is a ConfigMap of `v1`, the watch whose predicate is
built on the ConfigMap is registered on an object of kind Deployment and API
version `apps/v1`, the target's type, not on the source's. -/
theorem source_watch_has_target_type :
    exampleWatches.map
        (fun w => (w.predicate.ObjectReference.Kind, w.src.Kind, w.src.APIVersion))
      = [("Deployment", "Deployment", "apps/v1"), ("ConfigMap", "Deployment", "apps/v1")]
    ∧ examplePatch.SourceObjectRefs.map (fun s => (s.Kind, s.APIVersion))
      = [("ConfigMap", "v1")] := by
  exact ⟨by rfl, by rfl⟩

/-! ### Field extractor -/

/-- C9: for every object, `getSubMapFromObject` with the empty field path returns
the object's full structured content and no error, and leaves the world as it
was: no path expression is parsed or evaluated. -/
theorem getSubMapFromObject_empty {σ : Type} (env : Env σ) (obj : Unstructured) (w : World σ) :
    getSubMapFromObject env obj "" w = (.ok obj.UnstructuredContent, w)
    ∧ (getSubMapFromObject env obj "" w).2.calls = w.calls
    ∧ handedToParser env obj "" w = [] := by
  have h : getSubMapFromObject env obj "" w = (.ok obj.UnstructuredContent, w) := by
    simp [getSubMapFromObject]
  refine ⟨h, by rw [h], ?_⟩
  simp [handedToParser, h]

/-- For a non-empty field path the parser receives the path wrapped in one pair
of braces, and the result is the one parser and evaluator give for it. -/
theorem getSubMapFromObject_wraps {σ : Type} (env : Env σ) (obj : Unstructured) (p : String)
    (w : World σ) (hp : p ≠ "") :
    handedToParser env obj p w = ["\x7b" ++ p ++ "\x7d"]
    ∧ (getSubMapFromObject env obj p w).1
        = firstResult env obj.UnstructuredContent ("\x7b" ++ p ++ "\x7d") := by
  have hp' : (p == "") = false := by simpa using hp
  constructor
  · simp only [handedToParser, getSubMapFromObject, hp', Bool.false_eq_true, if_false]
    cases env.Parse ("\x7b" ++ p ++ "\x7d") with
    | some err => simp [parserInputs, World.log]
    | none =>
      cases env.FindResults ("\x7b" ++ p ++ "\x7d") obj.UnstructuredContent with
      | error err => simp [parserInputs, World.log]
      | ok values =>
        rcases values with _ | ⟨_ | ⟨v, l⟩, rest⟩ <;> simp [parserInputs, World.log]
  · simp only [getSubMapFromObject, hp', Bool.false_eq_true, if_false, firstResult]
    cases env.Parse ("\x7b" ++ p ++ "\x7d") with
    | some err => rfl
    | none =>
      cases env.FindResults ("\x7b" ++ p ++ "\x7d") obj.UnstructuredContent with
      | error err => rfl
      | ok values =>
        rcases values with _ | ⟨_ | ⟨v, l⟩, rest⟩ <;> rfl

theorem ne_empty_of_length_pos (p : String) (h : 0 < p.length) : p ≠ "" := by
  intro hp
  rw [hp] at h
  exact absurd h (by decide)

theorem ne_of_length_ne (p q : String) (h : p.length ≠ q.length) : p ≠ q := by
  intro hpq
  exact h (by rw [hpq])

/-- C8, as the code has it: `getSubMapFromObject` does not normalize a non-empty
field path, it wraps it in one pair of braces and hands that to the parser. For
the four forms of a logical path `s` the parser receives brace-`s`-brace,
brace-dot-`s`-brace, and the two already braced forms wrapped in a second pair of
braces; only the form dot-`s` gives the canonical expression. The value or error
returned for a field path is the one parser and evaluator give for the wrapped
expression. -/
theorem getSubMapFromObject_four_forms {σ : Type} (env : Env σ) (obj : Unstructured)
    (s : String) (w : World σ) (hne : s ≠ "") :
    handedToParser env obj s w = ["\x7b" ++ s ++ "\x7d"]
    ∧ handedToParser env obj ("." ++ s) w = ["\x7b." ++ s ++ "\x7d"]
    ∧ handedToParser env obj ("\x7b" ++ s ++ "\x7d") w = ["\x7b\x7b" ++ s ++ "\x7d\x7d"]
    ∧ handedToParser env obj ("\x7b." ++ s ++ "\x7d") w = ["\x7b\x7b." ++ s ++ "\x7d\x7d"]
    ∧ (∀ p : String, p ≠ "" → (getSubMapFromObject env obj p w).1
        = firstResult env obj.UnstructuredContent ("\x7b" ++ p ++ "\x7d"))
    ∧ "\x7b" ++ s ++ "\x7d" ≠ "\x7b." ++ s ++ "\x7d"
    ∧ "\x7b\x7b" ++ s ++ "\x7d\x7d" ≠ "\x7b." ++ s ++ "\x7d"
    ∧ "\x7b\x7b." ++ s ++ "\x7d\x7d" ≠ "\x7b." ++ s ++ "\x7d" := by
  have e₁ : "\x7b" ++ ("." ++ s) ++ "\x7d" = "\x7b." ++ s ++ "\x7d" := by
    rw [← String.append_assoc]; rfl
  have e₂ : "\x7b" ++ ("\x7b" ++ s ++ "\x7d") ++ "\x7d" = "\x7b\x7b" ++ s ++ "\x7d\x7d" := by
    apply String.ext
    simp [String.data_append]
  have e₃ : "\x7b" ++ ("\x7b." ++ s ++ "\x7d") ++ "\x7d" = "\x7b\x7b." ++ s ++ "\x7d\x7d" := by
    apply String.ext
    simp [String.data_append]
  have l₁ : ".".length = 1 := rfl
  have l₂ : "\x7b".length = 1 := rfl
  have l₃ : "\x7d".length = 1 := rfl
  have l₄ : "\x7b.".length = 2 := rfl
  have l₅ : "\x7b\x7b".length = 2 := rfl
  have l₆ : "\x7d\x7d".length = 2 := rfl
  have l₇ : "\x7b\x7b.".length = 3 := rfl
  have n₁ : "." ++ s ≠ "" :=
    ne_empty_of_length_pos _ (by simp only [String.length_append, l₁]; omega)
  have n₂ : "\x7b" ++ s ++ "\x7d" ≠ "" :=
    ne_empty_of_length_pos _ (by simp only [String.length_append, l₂, l₃]; omega)
  have n₃ : "\x7b." ++ s ++ "\x7d" ≠ "" :=
    ne_empty_of_length_pos _ (by simp only [String.length_append, l₄, l₃]; omega)
  refine ⟨(getSubMapFromObject_wraps env obj s w hne).1, ?_, ?_, ?_,
    fun p hp => (getSubMapFromObject_wraps env obj p w hp).2, ?_, ?_, ?_⟩
  · rw [← e₁]; exact (getSubMapFromObject_wraps env obj _ w n₁).1
  · rw [← e₂]; exact (getSubMapFromObject_wraps env obj _ w n₂).1
  · rw [← e₃]; exact (getSubMapFromObject_wraps env obj _ w n₃).1
  · exact ne_of_length_ne _ _
      (by simp only [String.length_append, l₂, l₃, l₄]; omega)
  · exact ne_of_length_ne _ _
      (by simp only [String.length_append, l₃, l₄, l₅, l₆]; omega)
  · exact ne_of_length_ne _ _
      (by simp only [String.length_append, l₃, l₄, l₆, l₇]; omega)

/-- The four forms of the path `data` on the ConfigMap of the example store. -/
theorem getSubMapFromObject_four_forms_witness :
    "data" ≠ ""
    ∧ (handedToParser exampleEnv settingsObject "data" exampleWorld = ["\x7b" ++ "data" ++ "\x7d"]
      ∧ handedToParser exampleEnv settingsObject ("." ++ "data") exampleWorld
          = ["\x7b." ++ "data" ++ "\x7d"]
      ∧ handedToParser exampleEnv settingsObject ("\x7b" ++ "data" ++ "\x7d") exampleWorld
          = ["\x7b\x7b" ++ "data" ++ "\x7d\x7d"]
      ∧ handedToParser exampleEnv settingsObject ("\x7b." ++ "data" ++ "\x7d") exampleWorld
          = ["\x7b\x7b." ++ "data" ++ "\x7d\x7d"]
      ∧ (∀ p : String, p ≠ "" → (getSubMapFromObject exampleEnv settingsObject p exampleWorld).1
          = firstResult exampleEnv settingsObject.UnstructuredContent ("\x7b" ++ p ++ "\x7d"))
      ∧ "\x7b" ++ "data" ++ "\x7d" ≠ "\x7b." ++ "data" ++ "\x7d"
      ∧ "\x7b\x7b" ++ "data" ++ "\x7d\x7d" ≠ "\x7b." ++ "data" ++ "\x7d"
      ∧ "\x7b\x7b." ++ "data" ++ "\x7d\x7d" ≠ "\x7b." ++ "data" ++ "\x7d") :=
  ⟨by decide, getSubMapFromObject_four_forms exampleEnv settingsObject "data" exampleWorld
    (by decide)⟩

/-- C8 as stated fails: for the logical path `data`, the four forms make
`getSubMapFromObject` hand four different expressions to the parser, of which
only the one for the form dot-`data` is the canonical one; the braced form is
wrapped in a second pair of braces. -/
theorem four_forms_reach_parser_unnormalized :
    [handedToParser exampleEnv settingsObject "data" exampleWorld,
      handedToParser exampleEnv settingsObject ".data" exampleWorld,
      handedToParser exampleEnv settingsObject "\x7bdata\x7d" exampleWorld,
      handedToParser exampleEnv settingsObject "\x7b.data\x7d" exampleWorld]
      = [["\x7bdata\x7d"], ["\x7b.data\x7d"], ["\x7b\x7bdata\x7d\x7d"], ["\x7b\x7b.data\x7d\x7d"]]
    ∧ "\x7b\x7bdata\x7d\x7d" ≠ "\x7b.data\x7d" := by
  exact ⟨by rfl, by decide⟩

/-! ### Reference resolver -/

/-- When an entry of the requested kind that is not a subresource exists, the
loop returns the first one, with group and version set to those requested. -/
theorem findAPIResource_found (gvk : GroupVersionKind) (before : List APIResource)
    (resource : APIResource) (after : List APIResource) (res : APIResource)
    (hbefore : ∀ r ∈ before, (r.Kind == gvk.Kind && !containsSlash r.Name) = false)
    (hres : (resource.Kind == gvk.Kind && !containsSlash resource.Name) = true) :
    findAPIResource gvk (before ++ resource :: after) res
      = { resource with Group := gvk.Group, Version := gvk.Version } := by
  induction before with
  | nil => simp only [List.nil_append, findAPIResource, hres, if_true]
  | cons r rest ih =>
    have hr := hbefore r (by simp)
    simp only [List.cons_append, findAPIResource, hr, Bool.false_eq_true, if_false]
    exact ih (fun x hx => hbefore x (by simp [hx]))

/-- When no entry qualifies, the loop returns the variable as it was. -/
theorem findAPIResource_missing (gvk : GroupVersionKind) (resList : List APIResource)
    (res : APIResource)
    (hnone : ∀ r ∈ resList, (r.Kind == gvk.Kind && !containsSlash r.Name) = false) :
    findAPIResource gvk resList res = res := by
  induction resList with
  | nil => rfl
  | cons r rest ih =>
    have hr := hnone r (by simp)
    simp only [findAPIResource, hr, Bool.false_eq_true, if_false]
    exact ih (fun x hx => hnone x (by simp [hx]))

/-- C10 fails on the code: discovery for `v1` returns the list pods, configmaps,
which has no entry of kind Secret; `getAPIReourceForGVK` for the kind Secret
returns the zero resource and no error, and `getReferecedObject` for a Secret
goes on to ask for a dynamic client on the zero resource and to fetch the object
with it, so the error it returns is the one of the fetch. -/
theorem getAPIReourceForGVK_missing_kind_no_error :
    (getAPIReourceForGVK exampleEnv { Group := "", Version := "v1", Kind := "Secret" }
        exampleWorld).1 = .ok {}
    ∧ (getReferecedObject exampleEnv secretRef exampleWorld).2.calls
        = [.GetDiscoveryClient, .ServerResourcesForGroupVersion "v1",
            .GetDynamicClientOnAPIResource {}, .Get {} none "db-password"]
    ∧ (getReferecedObject exampleEnv secretRef exampleWorld).1 = .error notFound := by
  exact ⟨by rfl, by rfl, by rfl⟩

/-! ### Reconcile cycle -/

theorem NoPatchSince.refl {σ : Type} (w : World σ) : NoPatchSince w w :=
  ⟨rfl, [], by simp, by simp⟩

theorem NoPatchSince.trans {σ : Type} {w₁ w₂ w₃ : World σ} (h₁ : NoPatchSince w₁ w₂)
    (h₂ : NoPatchSince w₂ w₃) : NoPatchSince w₁ w₃ := by
  obtain ⟨hs₁, n₁, hc₁, hp₁⟩ := h₁
  obtain ⟨hs₂, n₂, hc₂, hp₂⟩ := h₂
  refine ⟨hs₂.trans hs₁, n₁ ++ n₂, by rw [hc₂, hc₁, List.append_assoc], ?_⟩
  intro c hc
  rcases List.mem_append.mp hc with h | h
  · exact hp₁ c h
  · exact hp₂ c h

theorem NoPatchSince.log {σ : Type} (w : World σ) (c : Call) (hc : c.isPatch = false) :
    NoPatchSince w (w.log c) :=
  ⟨rfl, [c], rfl, by simpa using hc⟩

theorem getAPIReourceForGVK_noPatch {σ : Type} (env : Env σ) (gvk : GroupVersionKind)
    (w : World σ) : NoPatchSince w (getAPIReourceForGVK env gvk w).2 := by
  simp only [getAPIReourceForGVK]
  have h₁ := NoPatchSince.log w .GetDiscoveryClient rfl
  split
  · exact h₁
  · have h₂ := NoPatchSince.log (w.log .GetDiscoveryClient)
      (.ServerResourcesForGroupVersion (env.groupVersionString gvk)) rfl
    split
    · exact h₁.trans h₂
    · exact h₁.trans h₂

theorem getReferecedObject_noPatch {σ : Type} (env : Env σ) (objref : ObjectReference)
    (w : World σ) : NoPatchSince w (getReferecedObject env objref w).2 := by
  have h₀ := getAPIReourceForGVK_noPatch env
    (env.FromAPIVersionAndKind objref.APIVersion objref.Kind) w
  simp only [getReferecedObject]
  cases hres : getAPIReourceForGVK env
      (env.FromAPIVersionAndKind objref.APIVersion objref.Kind) w with
  | mk r w₁ =>
    rw [hres] at h₀
    cases r with
    | error err => exact h₀
    | ok res =>
      simp only
      have h₁ := NoPatchSince.log w₁ (.GetDynamicClientOnAPIResource res) rfl
      split
      · exact h₀.trans h₁
      · have h₂ := NoPatchSince.log (w₁.log (.GetDynamicClientOnAPIResource res))
          (.Get res (if res.Namespaced then some objref.Namespace else none) objref.Name) rfl
        split
        · exact (h₀.trans h₁).trans h₂
        · exact (h₀.trans h₁).trans h₂

theorem getSubMapFromObject_noPatch {σ : Type} (env : Env σ) (obj : Unstructured)
    (fieldPath : String) (w : World σ) :
    NoPatchSince w (getSubMapFromObject env obj fieldPath w).2 := by
  simp only [getSubMapFromObject]
  split
  · exact NoPatchSince.refl w
  · have h₁ := NoPatchSince.log w
      (.Parse ("fieldPath:" ++ fieldPath) ("\x7b" ++ fieldPath ++ "\x7d")) rfl
    split
    · exact h₁
    · have h₂ := NoPatchSince.log
        (w.log (.Parse ("fieldPath:" ++ fieldPath) ("\x7b" ++ fieldPath ++ "\x7d")))
        (.FindResults ("\x7b" ++ fieldPath ++ "\x7d") obj.UnstructuredContent) rfl
      split
      · exact h₁.trans h₂
      · split
        · exact h₁.trans h₂
        · exact h₁.trans h₂

theorem Gathered.noPatch {σ : Type} {env : Env σ} {refs : List ObjectReference}
    {w w' : World σ} {maps : List Value} (h : Gathered env refs w maps w') :
    NoPatchSince w w' := by
  induction h with
  | nil w => exact NoPatchSince.refl w
  | @cons objref rest w w₁ w₂ w₃ sourceObj sourceMap maps h₁ h₂ _ ih =>
    have a := getReferecedObject_noPatch env objref w
    rw [h₁] at a
    have b := getSubMapFromObject_noPatch env sourceObj objref.FieldPath w₁
    rw [h₂] at b
    exact (a.trans b).trans ih

/-- The loop of `Reconcile` on a list whose first references are gathered
without error goes on with the rest. -/
theorem gatherSourceMaps_of_gathered {σ : Type} {env : Env σ} {refs : List ObjectReference}
    {w w' : World σ} {maps : List Value} (h : Gathered env refs w maps w') :
    ∀ (rest : List ObjectReference) (acc : List Value),
      gatherSourceMaps env (refs ++ rest) acc w = gatherSourceMaps env rest (acc ++ maps) w' := by
  induction h with
  | nil w => intro rest acc; simp
  | @cons objref rest' w w₁ w₂ w₃ sourceObj sourceMap maps h₁ h₂ _ ih =>
    intro rest acc
    have hstep : gatherSourceMaps env (objref :: (rest' ++ rest)) acc w
        = gatherSourceMaps env (rest' ++ rest) (acc ++ [sourceMap]) w₂ := by
      simp only [gatherSourceMaps, h₁, h₂]
    rw [List.cons_append, hstep, ih rest (acc ++ [sourceMap])]
    simp

theorem gatherSourceMaps_all {σ : Type} {env : Env σ} {refs : List ObjectReference}
    {w w' : World σ} {maps : List Value} (h : Gathered env refs w maps w') :
    gatherSourceMaps env refs [] w = (.ok maps, w') := by
  have := gatherSourceMaps_of_gathered h [] []
  simpa [gatherSourceMaps] using this

theorem manageError_result {σ : Type} (env : Env σ) (lpr : LockedPatchReconciler) (e : GoError)
    (w : World σ) :
    (manageError env lpr e w).1 = (({} : Result), some e)
    ∧ (GetStatus (manageError env lpr e w).2.1).Type_ = some .Failure
    ∧ (GetStatus (manageError env lpr e w).2.1).Message = e.Error
    ∧ NoPatchSince w (manageError env lpr e w).2.2 := by
  obtain ⟨patch, status, statusChange, parentObject⟩ := lpr
  cases statusChange with
  | none => exact ⟨rfl, rfl, rfl, NoPatchSince.refl w⟩
  | some c => exact ⟨rfl, rfl, rfl, rfl, [], by simp [manageError, setStatus], by simp⟩

theorem manageSuccess_result {σ : Type} (env : Env σ) (lpr : LockedPatchReconciler)
    (w : World σ) :
    (manageSuccess env lpr w).1 = (({} : Result), none)
    ∧ (GetStatus (manageSuccess env lpr w).2.1).Type_ = some .Enforcing := by
  obtain ⟨patch, status, statusChange, parentObject⟩ := lpr
  cases statusChange with
  | none => exact ⟨rfl, rfl⟩
  | some c => exact ⟨rfl, rfl⟩

/-- A cycle in which a stage fails with `e` ends in `manageError` on `e`, in a
world that saw no patch call unless the failing stage is the apply stage. -/
theorem Reconcile_of_stageFails {σ : Type} (env : Env σ) (lpr : LockedPatchReconciler)
    (request : Request) (w : World σ) (stage : Stage) (e : GoError)
    (h : StageFails env lpr w stage e) :
    ∃ w', Reconcile env lpr request w = manageError env lpr e w'
      ∧ (stage ≠ .apply → NoPatchSince w w') := by
  cases h with
  | @fetchTarget _ w₁ h₁ =>
    refine ⟨w₁, by simp only [Reconcile, h₁], fun _ => ?_⟩
    have a := getReferecedObject_noPatch env lpr.Patch.TargetObjectRef w
    rw [h₁] at a
    exact a
  | @fetchSource _ targetObj w₁ w₂ w₃ before after objref maps h₁ hrefs hg h₂ =>
    have a := getReferecedObject_noPatch env lpr.Patch.TargetObjectRef w
    rw [h₁] at a
    have b := getReferecedObject_noPatch env objref w₂
    rw [h₂] at b
    refine ⟨w₃, ?_, fun _ => (a.trans hg.noPatch).trans b⟩
    have hloop : gatherSourceMaps env lpr.Patch.SourceObjectRefs [] w₁ = (.error e, w₃) := by
      rw [hrefs, gatherSourceMaps_of_gathered hg]
      simp only [gatherSourceMaps, h₂]
    simp only [Reconcile, h₁, hloop]
  | @extract _ targetObj sourceObj w₁ w₂ w₃ w₄ before after objref maps h₁ hrefs hg h₂ h₃ =>
    have a := getReferecedObject_noPatch env lpr.Patch.TargetObjectRef w
    rw [h₁] at a
    have b := getReferecedObject_noPatch env objref w₂
    rw [h₂] at b
    have c := getSubMapFromObject_noPatch env sourceObj objref.FieldPath w₃
    rw [h₃] at c
    refine ⟨w₄, ?_, fun _ => ((a.trans hg.noPatch).trans b).trans c⟩
    have hloop : gatherSourceMaps env lpr.Patch.SourceObjectRefs [] w₁ = (.error e, w₄) := by
      rw [hrefs, gatherSourceMaps_of_gathered hg]
      simp only [gatherSourceMaps, h₂, h₃]
    simp only [Reconcile, h₁, hloop]
  | @render _ targetObj w₁ w₂ maps h₁ hg h₂ =>
    have a := getReferecedObject_noPatch env lpr.Patch.TargetObjectRef w
    rw [h₁] at a
    refine ⟨w₂.log (.Execute maps), ?_,
      fun _ => (a.trans hg.noPatch).trans (NoPatchSince.log w₂ (.Execute maps) rfl)⟩
    simp only [Reconcile, h₁, gatherSourceMaps_all hg, applyPatch, h₂]
  | @convert _ targetObj w₁ w₂ maps b h₁ hg h₂ h₃ =>
    have a := getReferecedObject_noPatch env lpr.Patch.TargetObjectRef w
    rw [h₁] at a
    refine ⟨(w₂.log (.Execute maps)).log (.YAMLToJSON b), ?_,
      fun _ => ((a.trans hg.noPatch).trans (NoPatchSince.log w₂ (.Execute maps) rfl)).trans
        (NoPatchSince.log (w₂.log (.Execute maps)) (.YAMLToJSON b) rfl)⟩
    simp only [Reconcile, h₁, gatherSourceMaps_all hg, applyPatch, h₂, h₃]
  | @apply _ targetObj w₁ w₂ maps b bb h₁ hg h₂ h₃ h₄ =>
    refine ⟨{ ((w₂.log (.Execute maps)).log (.YAMLToJSON b)).log
        (.Patch targetObj lpr.Patch.PatchType bb) with
        store := (env.Patch w₂.store targetObj lpr.Patch.PatchType bb).2 }, ?_,
      fun hne => absurd rfl hne⟩
    simp only [Reconcile, h₁, gatherSourceMaps_all hg, applyPatch, h₂, h₃, World.log]
    cases hp : env.Patch w₂.store targetObj lpr.Patch.PatchType bb with
    | mk r store =>
      rw [hp] at h₄
      simp only at h₄
      subst h₄
      rfl

/-- C1: in every reconcile cycle in which a stage (fetching the target, fetching
a source, extracting a source's field path, executing the template, converting
the rendered text, applying the patch) fails with an error `e`, `Reconcile`
returns exactly `e` with the empty result, and afterwards `GetStatus` returns a
condition of type Failure whose message is the text of `e`. -/
theorem Reconcile_returns_stage_error {σ : Type} (env : Env σ) (lpr : LockedPatchReconciler)
    (request : Request) (w : World σ) (stage : Stage) (e : GoError)
    (h : StageFails env lpr w stage e) :
    (Reconcile env lpr request w).1 = (({} : Result), some e)
    ∧ (GetStatus (Reconcile env lpr request w).2.1).Type_ = some .Failure
    ∧ (GetStatus (Reconcile env lpr request w).2.1).Message = e.Error := by
  obtain ⟨w', hrec, _⟩ := Reconcile_of_stageFails env lpr request w stage e h
  rw [hrec]
  obtain ⟨h₁, h₂, h₃, _⟩ := manageError_result env lpr e w'
  exact ⟨h₁, h₂, h₃⟩

/-- C2: in every reconcile cycle in which the target and all sources are
fetched, every field path is extracted, the template renders, the text converts
and the store accepts the patch, `Reconcile` returns no error with the empty
result, and afterwards `GetStatus` returns a condition of type Enforcing,
whatever the reconciler's status was before. -/
theorem Reconcile_success_enforcing {σ : Type} (env : Env σ) (lpr : LockedPatchReconciler)
    (request : Request) (w : World σ) (h : CycleSucceeds env lpr w) :
    (Reconcile env lpr request w).1 = (({} : Result), none)
    ∧ (GetStatus (Reconcile env lpr request w).2.1).Type_ = some .Enforcing := by
  cases h with
  | @intro targetObj w₁ w₂ maps b bb h₁ hg h₂ h₃ h₄ =>
    have hrec : Reconcile env lpr request w = manageSuccess env lpr
        { ((w₂.log (.Execute maps)).log (.YAMLToJSON b)).log
            (.Patch targetObj lpr.Patch.PatchType bb) with
          store := (env.Patch w₂.store targetObj lpr.Patch.PatchType bb).2 } := by
      simp only [Reconcile, h₁, gatherSourceMaps_all hg, applyPatch, h₂, h₃, World.log]
      cases hp : env.Patch w₂.store targetObj lpr.Patch.PatchType bb with
      | mk r store =>
        rw [hp] at h₄
        simp only at h₄
        subst h₄
        rfl
    rw [hrec]
    exact manageSuccess_result env lpr _

/-- C3: in every reconcile cycle in which fetching the target or a source,
extracting a field path, executing the template or converting the rendered text
fails, `Reconcile` makes no call of the patch endpoint: the calls made during the
cycle hold no patch call, and the store is as it was. -/
theorem Reconcile_failure_before_apply_no_patch {σ : Type} (env : Env σ)
    (lpr : LockedPatchReconciler) (request : Request) (w : World σ) (stage : Stage)
    (e : GoError) (h : StageFails env lpr w stage e) (hstage : stage ≠ .apply) :
    (Reconcile env lpr request w).2.2.store = w.store
    ∧ ∃ new, (Reconcile env lpr request w).2.2.calls = w.calls ++ new
        ∧ ∀ c ∈ new, c.isPatch = false := by
  obtain ⟨w', hrec, hno⟩ := Reconcile_of_stageFails env lpr request w stage e h
  rw [hrec]
  exact (hno hstage).trans (manageError_result env lpr e w').2.2.2

/-! ### Example cycles -/

/-- With a source of kind Secret the fetch of the source fails, after the target
was fetched. -/
theorem secretReconciler_stageFails :
    StageFails exampleEnv secretReconciler exampleWorld .fetchSource notFound :=
  @StageFails.fetchSource _ exampleEnv secretReconciler exampleWorld notFound webObject
    worldAfterTarget worldAfterTarget (getReferecedObject exampleEnv secretRef worldAfterTarget).2
    [] [] secretRef [] rfl rfl (Gathered.nil _) rfl

/-- Without sources the template fails on its index, after the target was
fetched. -/
theorem indexReconciler_stageFails :
    StageFails exampleEnv indexReconciler exampleWorld .render
      (.ext 1 "error calling index: index out of range: 0") :=
  @StageFails.render _ exampleEnv indexReconciler exampleWorld _ webObject
    worldAfterTarget worldAfterTarget [] rfl (Gathered.nil _) rfl

/-- Every stage of the example cycle succeeds. -/
theorem exampleReconciler_cycleSucceeds :
    CycleSucceeds exampleEnv exampleReconciler exampleWorld :=
  @CycleSucceeds.intro _ exampleEnv exampleReconciler exampleWorld webObject
    worldAfterTarget worldAfterSource [.node "3"]
    "spec: \x7breplicas: 3\x7d" "spec: \x7breplicas: 3\x7d"
    rfl
    (@Gathered.cons _ exampleEnv settingsConfigMap [] worldAfterTarget
      (getReferecedObject exampleEnv settingsConfigMap worldAfterTarget).2
      worldAfterSource worldAfterSource settingsObject (.node "3") []
      rfl rfl (Gathered.nil _))
    rfl rfl rfl

/-- The cycle whose source fetch fails returns that error and reports Failure. -/
theorem Reconcile_returns_stage_error_witness :
    StageFails exampleEnv secretReconciler exampleWorld .fetchSource notFound
    ∧ ((Reconcile exampleEnv secretReconciler exampleRequest exampleWorld).1
          = (({} : Result), some notFound)
      ∧ (GetStatus (Reconcile exampleEnv secretReconciler exampleRequest exampleWorld).2.1).Type_
          = some .Failure
      ∧ (GetStatus (Reconcile exampleEnv secretReconciler exampleRequest exampleWorld).2.1).Message
          = notFound.Error) :=
  ⟨secretReconciler_stageFails,
    Reconcile_returns_stage_error exampleEnv secretReconciler exampleRequest exampleWorld
      .fetchSource notFound secretReconciler_stageFails⟩

/-- The example cycle, started from a Failure status, ends in Enforcing. -/
theorem Reconcile_success_enforcing_witness :
    CycleSucceeds exampleEnv exampleReconciler exampleWorld
    ∧ ((Reconcile exampleEnv exampleReconciler exampleRequest exampleWorld).1
          = (({} : Result), none)
      ∧ (GetStatus (Reconcile exampleEnv exampleReconciler exampleRequest exampleWorld).2.1).Type_
          = some .Enforcing) :=
  ⟨exampleReconciler_cycleSucceeds,
    Reconcile_success_enforcing exampleEnv exampleReconciler exampleRequest exampleWorld
      exampleReconciler_cycleSucceeds⟩

/-- The cycle whose template indexes past the end of the source list makes no
patch call. -/
theorem Reconcile_failure_before_apply_no_patch_witness :
    (StageFails exampleEnv indexReconciler exampleWorld .render
        (.ext 1 "error calling index: index out of range: 0")
      ∧ Stage.render ≠ Stage.apply)
    ∧ ((Reconcile exampleEnv indexReconciler exampleRequest exampleWorld).2.2.store
          = exampleWorld.store
      ∧ ∃ new, (Reconcile exampleEnv indexReconciler exampleRequest exampleWorld).2.2.calls
            = exampleWorld.calls ++ new
          ∧ ∀ c ∈ new, c.isPatch = false) :=
  ⟨⟨indexReconciler_stageFails, by decide⟩,
    Reconcile_failure_before_apply_no_patch exampleEnv indexReconciler exampleRequest
      exampleWorld .render _ indexReconciler_stageFails (by decide)⟩

end PatchLocker
